import Mathlib

/-!
# snake-runner: orchestration kernel

A shallow embedding of the four source files of the runner:

* `cmd/snake-runner/config.go`            (`unmarshalConfig`)
* `internal/sidecar/sidecar.go`           (`Sidecar.create`, `Serve`, `Destroy`)
* `cmd/snake-runner/process_pipeline.go`  (`run`, `runJobs`, `runJob`, `fail`, ...)
* `cmd/snake-runner/scheduler.go`         (`getAndServe`, `serveTask`)

Go functions that return `(value, error)` become Lean functions returning a
pair whose second component is `Option Err` (`none` is Go's `nil` error).
Calls made to the external collaborators (CI service client, container
provider) are recorded in explicit traces; their answers are supplied by an
environment record.
-/

namespace SnakeRunner

/-! ## Errors and statuses -/

/-- Go `error` values.  The only property of an error the code inspects is
whether it derives from `context.Canceled` (`utils.IsCanceled`); wrapping an
error with `karma.Format` keeps that property, so wrapped errors are
represented by the error they wrap. -/
inductive Err where
  | canceled
  | failure (msg : String)
deriving DecidableEq, Repr

/-- Go `utils.IsCanceled(err)`. -/
def IsCanceled : Err → Bool
  | .canceled => true
  | .failure _ => false

/-- The status strings of `process_pipeline.go` (`"PENDING"`, `"QUEUED"`, ...). -/
inductive Status where
  | PENDING | QUEUED | RUNNING | SUCCESS | FAILED | CANCELED | SKIPPED | UNKNOWN
deriving DecidableEq, Repr

abbrev StatusPending : Status := .PENDING
abbrev StatusQueued : Status := .QUEUED
abbrev StatusRunning : Status := .RUNNING
abbrev StatusSuccess : Status := .SUCCESS
abbrev StatusFailed : Status := .FAILED
abbrev StatusCanceled : Status := .CANCELED
abbrev StatusSkipped : Status := .SKIPPED
abbrev StatusUnknown : Status := .UNKNOWN

/-- An instant returned by `utils.Now()`. -/
abbrev Time := Nat

/-! ## Go maps with string keys

A `map[string]T` is an association list; `range` visits it in list order. -/

/-- Go `m[key]` with the comma-ok form. -/
def mapLoad {α : Type} (m : List (String × α)) (key : String) : Option α :=
  m.lookup key

/-- Go `delete(m, key)`. -/
def mapDelete {α : Type} (m : List (String × α)) (key : String) : List (String × α) :=
  m.filter (fun kv => kv.1 ≠ key)

/-- Go `m[key] = value`. -/
def mapStore {α : Type} (m : List (String × α)) (key : String) (value : α) :
    List (String × α) :=
  mapDelete m key ++ [(key, value)]

/-- The keys of a map. -/
def mapKeys {α : Type} (m : List (String × α)) : List String :=
  m.map Prod.fst

/-! ## config.go -/

/-- Go `ConfigJob`. -/
structure ConfigJob where
  Variables : List (String × String) := []
  Stage : String := ""
  Shell : String := ""
  Image : String := ""
  Commands : List String := []
deriving DecidableEq, Repr

/-- Go `Config`. -/
structure Config where
  Variables : List (String × String) := []
  Shell : String := ""
  Image : String := ""
  Stages : List String := []
  Jobs : List (String × ConfigJob) := []
deriving DecidableEq, Repr

/-- The part of `gopkg.in/yaml.v3` that `unmarshalConfig` uses: the type
`yaml.Node`, `yaml.Unmarshal` into a `map[string]yaml.Node`, and
`node.Decode` at the four target types.  The library is not part of the
repository, so it is a parameter of the embedding. -/
structure Yaml where
  Node : Type
  Unmarshal : String → Except Err (List (String × Node))
  decodeString : Node → Except Err String
  decodeStrings : Node → Except Err (List String)
  decodeConfigJob : Node → Except Err ConfigJob
  decodeStringMap : Node → Except Err (List (String × String))

/-- The loop `for jobName, node := range raw` of `unmarshalConfig`
(config.go:64-75), started with the jobs collected so far. -/
def unmarshalConfig.jobs (Y : Yaml) :
    List (String × Y.Node) → List (String × ConfigJob) →
      List (String × ConfigJob) × Option Err
  | [], jobs => (jobs, none)
  | (jobName, node) :: rest, jobs =>
    match Y.decodeConfigJob node with
    | .error err => (jobs, some err)
    | .ok job => unmarshalConfig.jobs Y rest (mapStore jobs jobName job)

/-- Go `unmarshalConfig` (config.go:26-88). -/
def unmarshalConfig (Y : Yaml) (data : String) : Config × Option Err :=
  let config : Config := {}
  match Y.Unmarshal data with
  | .error err => (config, some err)
  | .ok raw =>
    match mapLoad raw "image" with
    | none => (config, some (.failure "missing image field"))
    | some node =>
      match Y.decodeString node with
      | .error err => (config, some err)
      | .ok image =>
        let config := { config with Image := image }
        let raw := mapDelete raw "image"
        match mapLoad raw "stages" with
        | none => (config, some (.failure "missing stages field"))
        | some node =>
          match Y.decodeStrings node with
          | .error err => (config, some err)
          | .ok stages =>
            let config := { config with Stages := stages }
            let raw := mapDelete raw "stages"
            match unmarshalConfig.jobs Y raw [] with
            | (jobs, some err) => ({ config with Jobs := jobs }, some err)
            | (jobs, none) =>
              let config := { config with Jobs := jobs }
              match mapLoad raw "variables" with
              | some node =>
                match Y.decodeStringMap node with
                | .error err => (config, some err)
                | .ok vars => ({ config with Variables := vars }, none)
              | none => (config, none)

/-! ### A small YAML document model

Used to evaluate `unmarshalConfig` on concrete documents. -/

/-- YAML nodes of depth at most two: a scalar, a sequence of scalars, or a
mapping from keys to scalars or sequences of scalars. -/
inductive Value where
  | scalar (s : String)
  | seq (items : List String)
deriving DecidableEq, Repr

/-- A top-level value: a plain value or a mapping of plain values. -/
inductive Node where
  | val (v : Value)
  | mapping (entries : List (String × Value))
deriving DecidableEq, Repr

/-- Decode a node as a Go `string`. -/
def Node.decodeString : Node → Except Err String
  | .val (.scalar s) => .ok s
  | _ => .error (.failure "cannot unmarshal into string")

/-- Decode a value as a Go `[]string`. -/
def Value.decodeStrings : Value → Except Err (List String)
  | .seq items => .ok items
  | .scalar _ => .error (.failure "cannot unmarshal into []string")

/-- Decode a node as a Go `[]string`. -/
def Node.decodeStrings : Node → Except Err (List String)
  | .val v => v.decodeStrings
  | .mapping _ => .error (.failure "cannot unmarshal into []string")

/-- Decode the entries of a mapping as a Go `map[string]string`. -/
def Node.decodeEntries : List (String × Value) → Except Err (List (String × String))
  | [] => .ok []
  | (k, .scalar s) :: rest =>
    match Node.decodeEntries rest with
    | .ok m => .ok ((k, s) :: m)
    | .error e => .error e
  | (_, .seq _) :: _ => .error (.failure "cannot unmarshal into string")

/-- Decode a node as a Go `map[string]string`. -/
def Node.decodeStringMap : Node → Except Err (List (String × String))
  | .mapping entries => Node.decodeEntries entries
  | .val _ => .error (.failure "cannot unmarshal into map[string]string")

/-- Decode a scalar-valued struct field: absent keeps the zero value. -/
def Node.field (entries : List (String × Value)) (key : String) : Except Err String :=
  match entries.lookup key with
  | none => .ok ""
  | some (.scalar s) => .ok s
  | some (.seq _) => .error (.failure "cannot unmarshal into string")

/-- Decode a node as a Go `ConfigJob`: keys that are not fields of the struct
are ignored, and a sub-mapping `variables` cannot occur at this depth. -/
def Node.decodeConfigJob : Node → Except Err ConfigJob
  | .val _ => .error (.failure "cannot unmarshal into ConfigJob")
  | .mapping entries =>
    match Node.field entries "stage", Node.field entries "shell",
        Node.field entries "image" with
    | .ok stage, .ok shell, .ok image =>
      match entries.lookup "commands" with
      | none => .ok { Stage := stage, Shell := shell, Image := image }
      | some v =>
        match v.decodeStrings with
        | .ok commands =>
          .ok { Stage := stage, Shell := shell, Image := image, Commands := commands }
        | .error e => .error e
    | .error e, _, _ => .error e
    | _, .error e, _ => .error e
    | _, _, .error e => .error e

/-- The example documents, paired with their top-level mappings. -/
def exampleDocuments : List (String × List (String × Node)) :=
  [ ("image: alpine\nstages:\n- build\n",
      [("image", .val (.scalar "alpine")), ("stages", .val (.seq ["build"]))]),
    ("image: alpine\nstages:\n- build\nvariables:\n  FOO: bar\n",
      [("image", .val (.scalar "alpine")), ("stages", .val (.seq ["build"])),
       ("variables", .mapping [("FOO", .scalar "bar")])]),
    ("image: alpine\nstages:\n- build\nvariables:\n  FOO: bar\ncompile:\n  stage: build\n  commands:\n  - make\n",
      [("image", .val (.scalar "alpine")), ("stages", .val (.seq ["build"])),
       ("variables", .mapping [("FOO", .scalar "bar")]),
       ("compile", .mapping [("stage", .scalar "build"), ("commands", .seq ["make"])])]),
    ("image: alpine\nstages:\n- build\nvariables:\n  commands: make\n",
      [("image", .val (.scalar "alpine")), ("stages", .val (.seq ["build"])),
       ("variables", .mapping [("commands", .scalar "make")])]),
    ("image: alpine\ncompile:\n  stage: build\n",
      [("image", .val (.scalar "alpine")),
       ("compile", .mapping [("stage", .scalar "build")])]) ]

/-- A YAML library that parses exactly the example documents. -/
def exampleYaml : Yaml where
  Node := Node
  Unmarshal := fun data =>
    match exampleDocuments.lookup data with
    | some raw => .ok raw
    | none => .error (.failure "yaml: not an example document")
  decodeString := Node.decodeString
  decodeStrings := Node.decodeStrings
  decodeConfigJob := Node.decodeConfigJob
  decodeStringMap := Node.decodeStringMap

/-! ## The container provider and sidecar.go -/

/-- Go `cloud.Container`: the opaque handle produced by the provider. -/
structure Container where
  ID : String
  Name : String
deriving DecidableEq, Repr

/-- Go `sshkey.Key`. -/
structure Key where
  Private : String
  Public : String
deriving DecidableEq, Repr

/-- A call made to the container provider (`cloud.Cloud`); the context
argument is not recorded. -/
inductive CloudCall where
  | GetImageWithTag (tag : String)
  | PullImage (ref : String)
  | CreateContainer (image name : String) (volumes : List String)
  | Exec (container : Option Container) (cmd env : List String)
  | Cat (container : Option Container) (dir filename : String)
  | DestroyContainer (container : Option Container)
deriving DecidableEq, Repr

/-- The answers of the container provider.  The provider is not part of the
repository; its answers (which may depend on the context being cancelled)
are a parameter. `GetImageWithTag` answers whether the image is non-nil. -/
structure Cloud where
  GetImageWithTag : String → Bool × Option Err
  PullImage : String → Option Err
  CreateContainer : String → String → List String → Option Container × Option Err
  Exec : Option Container → List String → List String → Option Err
  Cat : Option Container → String → String → String × Option Err
  DestroyContainer : Option Container → Option Err

def SidecarImage : String := "reconquest/snake-runner-sidecar"

def SSHConfigWithoutVerification : String :=
  "Host *\n\tStrictHostKeyChecking no\n\tUserKnownHostsFile /dev/null\n"

/-- Go `filepath.Join` of two elements, for a second element that is
non-empty and already clean: trailing separators of the first are dropped. -/
def filepathJoin (dir name : String) : String :=
  String.mk (dir.toList.reverse.dropWhile (fun c => c == '/')).reverse ++ "/" ++ name

/-- Go `strings.Join(elems, sep)`. -/
def stringsJoin (elems : List String) (sep : String) : String :=
  sep.intercalate elems

/-- Go `Sidecar`; the consumers of command and output text only feed logs
and are left out. -/
structure Sidecar where
  name : String
  pipelinesDir : String
  slug : String
  sshKey : Key
  container : Option Container := none
  containerDir : String := ""
  hostSubDir : String := ""
deriving DecidableEq, Repr

/-- Go `Sidecar.GetPipelineVolumes`. -/
def Sidecar.GetPipelineVolumes (sidecar : Sidecar) : List String :=
  [sidecar.hostSubDir ++ ":" ++ sidecar.containerDir]

/-- Go `Sidecar.GetContainerDir`. -/
def Sidecar.GetContainerDir (sidecar : Sidecar) : String :=
  sidecar.containerDir

/-- Go `Sidecar.GetContainer`. -/
def Sidecar.GetContainer (sidecar : Sidecar) : Option Container :=
  sidecar.container

/-- Go `Sidecar.create` (sidecar.go:51-89): the sidecar afterwards, the
provider calls issued, and the error. -/
def Sidecar.create (cloud : Cloud) (sidecar : Sidecar) :
    Sidecar × List CloudCall × Option Err :=
  match cloud.GetImageWithTag SidecarImage with
  | (_, some err) => (sidecar, [.GetImageWithTag SidecarImage], some err)
  | (img, none) =>
    let pulled : List CloudCall × Option Err :=
      if img then ([], none)
      else ([.PullImage SidecarImage], cloud.PullImage SidecarImage)
    match pulled with
    | (calls, some err) => (sidecar, .GetImageWithTag SidecarImage :: calls, some err)
    | (calls, none) =>
      let sidecar := { sidecar with
        hostSubDir := filepathJoin sidecar.pipelinesDir sidecar.name
        containerDir := filepathJoin "/pipelines/" sidecar.slug }
      let volumes := [
        sidecar.hostSubDir ++ ":" ++ sidecar.containerDir ++ ":rw",
        sidecar.pipelinesDir ++ ":/host:rw" ]
      let name := "snake-runner-sidecar-" ++ sidecar.name
      let created := cloud.CreateContainer SidecarImage name volumes
      ({ sidecar with container := created.1 },
        .GetImageWithTag SidecarImage :: calls ++
          [.CreateContainer SidecarImage name volumes],
        created.2)

/-- The loop over the clone and checkout commands of `Sidecar.Serve`
(sidecar.go:132-146); these run with no environment. -/
def Sidecar.Serve.commands (cloud : Cloud) (sidecar : Sidecar) :
    List (List String) → List CloudCall × Option Err
  | [] => ([], none)
  | cmd :: rest =>
    match cloud.Exec sidecar.container cmd [] with
    | some err => ([.Exec sidecar.container cmd []], some err)
    | none =>
      let (calls, err) := Sidecar.Serve.commands cloud sidecar rest
      (.Exec sidecar.container cmd [] :: calls, err)

/-- Go `Sidecar.Serve` (sidecar.go:91-149). -/
def Sidecar.Serve (cloud : Cloud) (sidecar : Sidecar) (cloneURL commitish : String) :
    Sidecar × List CloudCall × Option Err :=
  match Sidecar.create cloud sidecar with
  | (sidecar, calls, some err) => (sidecar, calls, some err)
  | (sidecar, calls, none) =>
    let env := [
      "__SNAKE_PRIVATE_KEY=" ++ sidecar.sshKey.Private,
      "__SNAKE_PUBLIC_KEY=" ++ sidecar.sshKey.Public,
      "__SNAKE_SSH_CONFIG=" ++ SSHConfigWithoutVerification ]
    let basic := [
      "mkdir ~/.ssh",
      "cat > ~/.ssh/id_rsa <<< \"$__SNAKE_PRIVATE_KEY\"",
      "cat > ~/.ssh/id_rsa.pub <<< \"$__SNAKE_PUBLIC_KEY\"",
      "cat > ~/.ssh/config <<< \"$__SNAKE_SSH_CONFIG\"",
      "chmod 0600 ~/.ssh/id_rsa ~/.ssh/id_rsa.pub",
      "git config --global advice.detachedHead false" ]
    let cmd := ["bash", "-c", stringsJoin basic " && "]
    let calls := calls ++ [.Exec sidecar.container cmd env]
    match cloud.Exec sidecar.container cmd env with
    | some err => (sidecar, calls, some err)
    | none =>
      let commands := [
        ["git", "clone", cloneURL, sidecar.containerDir],
        ["git", "-C", sidecar.containerDir, "checkout", commitish] ]
      let (more, err) := Sidecar.Serve.commands cloud sidecar commands
      (sidecar, calls ++ more, err)

/-- The result of `Sidecar.Destroy`: the sidecar afterwards, the provider
calls issued, and the lines written with `log.Errorf`.  The Go method has no
return value. -/
structure Destroyed where
  sidecar : Sidecar
  calls : List CloudCall
  errors : List String
deriving DecidableEq, Repr

/-- Go `Sidecar.Destroy` (sidecar.go:159-206). -/
def Sidecar.Destroy (cloud : Cloud) (sidecar : Sidecar) : Destroyed :=
  match sidecar.container with
  | none => { sidecar := sidecar, calls := [], errors := [] }
  | some container =>
    let wiped : List CloudCall × List String :=
      if sidecar.name ≠ "" then
        let cmd := ["rm", "-rf", filepathJoin "/host" sidecar.name]
        match cloud.Exec (some container) cmd [] with
        | some _ => ([.Exec (some container) cmd []],
            ["unable to cleanup sidecar directory"])
        | none => ([.Exec (some container) cmd []], [])
      else ([], [])
    match cloud.DestroyContainer (some container) with
    | some _ =>
      { sidecar := sidecar, calls := wiped.1 ++ [.DestroyContainer (some container)],
        errors := wiped.2 ++ ["unable to destroy sidecar container"] }
    | none =>
      { sidecar := sidecar, calls := wiped.1 ++ [.DestroyContainer (some container)],
        errors := wiped.2 }

/-! ## The CI service client and process_pipeline.go -/

/-- Go `snake.PipelineJob`; only the identifier is read by the process. -/
structure PipelineJob where
  ID : Int
deriving DecidableEq, Repr

/-- Go `tasks.PipelineRun`, flattened: `Pipeline.ID`, `Pipeline.Commit`,
`Pipeline.Filename`, `Project.Key`, `Repository.Slug`, `CloneURL.SSH`, `Jobs`. -/
structure PipelineRun where
  PipelineID : Int
  Commit : String := ""
  Filename : String := ""
  ProjectKey : String := ""
  RepositorySlug : String := ""
  CloneURL : String := ""
  Jobs : List PipelineJob
deriving DecidableEq, Repr

/-- Go `RunnerConfig`, the fields the kernel reads. -/
structure RunnerConfig where
  MaxParallelPipelines : Int
  PipelinesDir : String := ""
deriving DecidableEq, Repr

/-- A status update sent to the CI service: `Client.UpdatePipeline(id,
status, startedAt, finishedAt)` or `Client.UpdateJob(pipelineID, jobID,
status, startedAt, finishedAt)`; a `nil` time pointer is `none`. -/
inductive Call where
  | UpdatePipeline (id : Int) (status : Status) (startedAt finishedAt : Option Time)
  | UpdateJob (pipelineID jobID : Int) (status : Status)
      (startedAt finishedAt : Option Time)
deriving DecidableEq, Repr

/-- Everything outside the pipeline process.  Each answer may depend on the
status updates issued so far (the first argument), so successive calls are
answered independently.

* `client`: the error returned by the service for a status update;
* `now`: `utils.Now()`;
* `cloud`: the answers of the container provider;
* `randString`: `utils.RandString(10)`;
* `jobRun`: the error returned by the job executor `ProcessJob.run`, which is
  outside the kernel and sends no status update itself;
* `parentDone`: `utils.Done(process.parentCtx)`. -/
structure World where
  yaml : Yaml
  client : List Call → Call → Option Err
  now : List Call → Time
  cloud : List Call → Cloud
  randString : List Call → String
  jobRun : List Call → PipelineJob → Option Err
  parentDone : List Call → Bool

/-- Go `ProcessPipeline`.  `status` is `none` for the empty string the field
holds before `runJobs` returns.  `calls` and `cloudCalls` record, oldest
first, the status updates and provider calls issued so far. -/
structure ProcessPipeline where
  runnerConfig : RunnerConfig
  task : PipelineRun
  sshKey : Key
  status : Option Status := none
  sidecar : Option Sidecar := none
  config : Option Config := none
  calls : List Call := []
  cloudCalls : List CloudCall := []

/-- Go `NewProcessPipeline`. -/
def NewProcessPipeline (runnerConfig : RunnerConfig) (task : PipelineRun) (sshKey : Key) :
    ProcessPipeline :=
  { runnerConfig := runnerConfig, task := task, sshKey := sshKey }

/-- A status update is sent: it is recorded and the service answers. -/
def ProcessPipeline.send (w : World) (process : ProcessPipeline) (call : Call) :
    ProcessPipeline × Option Err :=
  ({ process with calls := process.calls ++ [call] }, w.client process.calls call)

/-- The loop of `ProcessPipeline.fail` (process_pipeline.go:241-274) over the
jobs still to visit, with the current value of `foundFailed`.  An error of
`UpdateJob` is logged and otherwise ignored. -/
def ProcessPipeline.fail.loop (w : World) (failedID : Int) (now : Option Time) :
    List PipelineJob → Bool → ProcessPipeline → ProcessPipeline
  | [], _, process => process
  | job :: rest, foundFailed, process =>
    if failedID = -1 then
      let sent := process.send w
        (.UpdateJob process.task.PipelineID job.ID StatusFailed none now)
      ProcessPipeline.fail.loop w failedID now rest foundFailed sent.1
    else if job.ID = failedID then
      let sent := process.send w
        (.UpdateJob process.task.PipelineID job.ID StatusFailed none now)
      ProcessPipeline.fail.loop w failedID now rest true sent.1
    else if !foundFailed then
      ProcessPipeline.fail.loop w failedID now rest foundFailed process
    else
      let sent := process.send w
        (.UpdateJob process.task.PipelineID job.ID StatusSkipped none none)
      ProcessPipeline.fail.loop w failedID now rest foundFailed sent.1

/-- Go `ProcessPipeline.fail` (process_pipeline.go:237-289).  An error of the
final `UpdatePipeline` is logged and otherwise ignored. -/
def ProcessPipeline.fail (w : World) (process : ProcessPipeline) (failedID : Int) :
    ProcessPipeline :=
  let now : Option Time := some (w.now process.calls)
  let process := ProcessPipeline.fail.loop w failedID now process.task.Jobs false process
  (process.send w (.UpdatePipeline process.task.PipelineID StatusFailed none now)).1

/-- Go `ProcessPipeline.readConfig` (process_pipeline.go:291-316). -/
def ProcessPipeline.readConfig (w : World) (process : ProcessPipeline) :
    ProcessPipeline × Option Err :=
  let container := process.sidecar.bind Sidecar.GetContainer
  let dir := (process.sidecar.map Sidecar.GetContainerDir).getD ""
  let process := { process with
    cloudCalls := process.cloudCalls ++ [.Cat container dir process.task.Filename] }
  match (w.cloud process.calls).Cat container dir process.task.Filename with
  | (_, some err) => (process, some err)
  | (yamlContents, none) =>
    let parsed := unmarshalConfig w.yaml yamlContents
    ({ process with config := some parsed.1 }, parsed.2)

/-- The tail of `ProcessPipeline.runJob` (process_pipeline.go:218-234): the
job executor runs and its error is classified. -/
def ProcessPipeline.runJob.execute (w : World) (process : ProcessPipeline)
    (target : PipelineJob) : ProcessPipeline × Status × Option Err :=
  match w.jobRun process.calls target with
  | some err =>
    if IsCanceled err then
      if w.parentDone process.calls then
        (process, StatusFailed, some err)
      else
        (process, StatusCanceled, some err)
    else
      (process, StatusFailed, some err)
  | none => (process, StatusSuccess, none)

/-- Go `ProcessPipeline.runJob` (process_pipeline.go:143-235). -/
def ProcessPipeline.runJob (w : World) (process : ProcessPipeline) (target : PipelineJob) :
    ProcessPipeline × Status × Option Err :=
  match process.send w
      (.UpdateJob process.task.PipelineID target.ID StatusRunning
        (some (w.now process.calls)) none) with
  | (process, some err) => (process, StatusFailed, some err)
  | (process, none) =>
    match process.sidecar with
    | none =>
      let built : Sidecar := {
        name := "pipeline-" ++ toString process.task.PipelineID ++ "-uniq-" ++
          w.randString process.calls
        slug := process.task.ProjectKey ++ "/" ++ process.task.RepositorySlug
        pipelinesDir := process.runnerConfig.PipelinesDir
        sshKey := process.sshKey }
      let served := built.Serve (w.cloud process.calls) process.task.CloneURL
        process.task.Commit
      let process := { process with
        sidecar := some served.1
        cloudCalls := process.cloudCalls ++ served.2.1 }
      match served.2.2 with
      | some err => (process, StatusFailed, some err)
      | none =>
        match process.readConfig w with
        | (process, some err) => (process, StatusFailed, some err)
        | (process, none) => ProcessPipeline.runJob.execute w process target
    | some _ => ProcessPipeline.runJob.execute w process target

/-- The loop of `ProcessPipeline.runJobs` (process_pipeline.go:97-138) over
the jobs still to run. -/
def ProcessPipeline.runJobs.loop (w : World) :
    List PipelineJob → ProcessPipeline → ProcessPipeline × Status × Option Err
  | [], process => (process, StatusSuccess, none)
  | job :: rest, process =>
    match process.runJob w job with
    | (process, status, err) =>
      let process := if status = StatusFailed then process.fail w job.ID else process
      match err with
      | some err => (process, status, some err)
      | none =>
        match process.send w
            (.UpdateJob process.task.PipelineID job.ID status none
              (some (w.now process.calls))) with
        | (process, some err) => (process.fail w job.ID, StatusFailed, some err)
        | (process, none) => ProcessPipeline.runJobs.loop w rest process

/-- Go `ProcessPipeline.runJobs` (process_pipeline.go:95-141). -/
def ProcessPipeline.runJobs (w : World) (process : ProcessPipeline) :
    ProcessPipeline × Status × Option Err :=
  ProcessPipeline.runJobs.loop w process.task.Jobs process

/-- Go `ProcessPipeline.destroy` (process_pipeline.go:318-322). -/
def ProcessPipeline.destroy (w : World) (process : ProcessPipeline) : ProcessPipeline :=
  match process.sidecar with
  | some sidecar =>
    let destroyed := sidecar.Destroy (w.cloud process.calls)
    { process with
      sidecar := some destroyed.sidecar
      cloudCalls := process.cloudCalls ++ destroyed.calls }
  | none => process

/-- The end of `ProcessPipeline.run` (process_pipeline.go:72-92), applied to
what `runJobs` returned: `process.status` is assigned, and unless `runJobs`
failed the pipeline is marked `SUCCESS`. -/
def ProcessPipeline.run.finish (w : World) :
    ProcessPipeline × Status × Option Err → ProcessPipeline × Option Err
  | (process, status, err) =>
    let process := { process with status := some status }
    match err with
    | some err => (process, some err)
    | none =>
      match process.send w
          (.UpdatePipeline process.task.PipelineID StatusSuccess none
            (some (w.now process.calls))) with
      | (process, some err) => (process.fail w (-1), some err)
      | (process, none) => (process, none)

/-- The body of `ProcessPipeline.run` before the deferred `destroy`
(process_pipeline.go:57-92). -/
def ProcessPipeline.run.body (w : World) (process : ProcessPipeline) :
    ProcessPipeline × Option Err :=
  match process.send w
      (.UpdatePipeline process.task.PipelineID StatusRunning
        (some (w.now process.calls)) none) with
  | (process, some err) => (process.fail w (-1), some err)
  | (process, none) => ProcessPipeline.run.finish w (process.runJobs w)

/-- Go `ProcessPipeline.run` (process_pipeline.go:48-93). -/
def ProcessPipeline.run (w : World) (process : ProcessPipeline) :
    ProcessPipeline × Option Err :=
  let done := ProcessPipeline.run.body w process
  (done.1.destroy w, done.2)

/-! ## scheduler.go -/

/-- The value of a Go `int64` computation: wrap-around into
`[-2^63, 2^63)`. -/
def wrapInt64 (x : Int) : Int :=
  (x + 2 ^ 63) % 2 ^ 64 - 2 ^ 63

/-- Go `atomic.AddInt64(&addr, delta)`: the new value stored at `addr`. -/
def atomicAddInt64 (addr delta : Int) : Int :=
  wrapInt64 (addr + delta)

/-- The task returned by `Client.GetTask` (an `interface{}` in Go): one of
the two task types, or a value of some other type. -/
inductive Task where
  | PipelineRun (task : PipelineRun)
  | PipelineCancel (pipelines : List Int)
  | unexpected
deriving DecidableEq, Repr

/-- A pipeline goroutine spawned by `serveTask` that has not yet finished;
`started` tells whether `startPipeline` has registered the pipeline. -/
structure Goroutine where
  task : PipelineRun
  sshKey : Key
  started : Bool := false
deriving DecidableEq, Repr

/-- Go `Scheduler`, the fields read or written by `getAndServe`,
`serveTask`, `cancelPipeline` and `startPipeline`.  `pipelinesMap` and
`cancels` hold the keys of the two registries, `canceled` the pipelines whose
cancel handle was invoked, `goroutines` the live pipeline goroutines. -/
structure Scheduler where
  config : RunnerConfig
  pipelines : Int := 0
  sshKey : Option Key := none
  pipelinesMap : List Int := []
  cancels : List Int := []
  canceled : List Int := []
  goroutines : List Goroutine := []
deriving DecidableEq, Repr

/-- The scheduler built by `startScheduler`. -/
def NewScheduler (config : RunnerConfig) : Scheduler :=
  { config := config }

/-- Go `Scheduler.getPipelines`. -/
def Scheduler.getPipelines (scheduler : Scheduler) : List Int :=
  scheduler.pipelinesMap

/-- Go `Scheduler.cancelPipeline` (scheduler.go:212-227). -/
def Scheduler.cancelPipeline (scheduler : Scheduler) (id : Int) : Scheduler :=
  if id ∈ scheduler.cancels then
    { scheduler with
      canceled := scheduler.canceled ++ [id]
      cancels := scheduler.cancels.filter (fun k => k ≠ id)
      pipelinesMap := scheduler.pipelinesMap.filter (fun k => k ≠ id) }
  else scheduler

/-- Go `Scheduler.serveTask` (scheduler.go:178-210); it always returns a
`nil` error. -/
def Scheduler.serveTask (scheduler : Scheduler) (task : Task) (sshKey : Key) :
    Scheduler × Option Err :=
  match task with
  | .PipelineRun task =>
    ({ scheduler with
        pipelines := atomicAddInt64 scheduler.pipelines 1
        goroutines := scheduler.goroutines ++ [{ task := task, sshKey := sshKey }] },
      none)
  | .PipelineCancel pipelines =>
    (pipelines.foldl Scheduler.cancelPipeline scheduler, none)
  | .unexpected => (scheduler, none)

/-- The outcome of one `getAndServe`: the scheduler afterwards, the
arguments `(runningPipelineIDs, hasCapacity, sshKey)` of the call to
`Client.GetTask` if one was made, and the two return values. -/
structure Served where
  scheduler : Scheduler
  request : Option (List Int × Bool × Key)
  wait : Bool
  err : Option Err
deriving DecidableEq, Repr

/-- Go `Scheduler.getAndServe` (scheduler.go:117-160).  `produced` is what
the select on the key factory yields when no key is cached (`none`: the
scheduler context is done); `getTask` is the answer of `Client.GetTask`. -/
def Scheduler.getAndServe (scheduler : Scheduler) (produced : Option Key)
    (getTask : List Int → Bool → Key → Option Task × Option Err) : Served :=
  let cached : Option Key :=
    match scheduler.sshKey with
    | some key => some key
    | none => produced
  match cached with
  | none => { scheduler := scheduler, request := none, wait := false, err := none }
  | some key =>
    let scheduler := { scheduler with sshKey := some key }
    let pipelines := scheduler.pipelines
    let hasCapacity : Bool := decide (pipelines < scheduler.config.MaxParallelPipelines)
    let request := (scheduler.getPipelines, hasCapacity, key)
    match getTask scheduler.getPipelines hasCapacity key with
    | (_, some err) =>
      { scheduler := { scheduler with sshKey := none }, request := some request,
        wait := true, err := some err }
    | (none, none) =>
      { scheduler := scheduler, request := some request, wait := true, err := none }
    | (some task, none) =>
      match scheduler.serveTask task key with
      | (scheduler, some err) =>
        { scheduler := { scheduler with sshKey := none }, request := some request,
          wait := true, err := some err }
      | (scheduler, none) =>
        { scheduler := { scheduler with sshKey := none }, request := some request,
          wait := false, err := none }

/-- The first part of `Scheduler.startPipeline` (scheduler.go:249-253), run
by goroutine `index`: the pipeline is stored in both registries. -/
def Scheduler.startPipeline (scheduler : Scheduler) (index : Nat) : Option Scheduler :=
  match scheduler.goroutines.get? index with
  | some goroutine =>
    if goroutine.started then none
    else some { scheduler with
      pipelinesMap := scheduler.pipelinesMap.filter (fun k => k ≠ goroutine.task.PipelineID)
        ++ [goroutine.task.PipelineID]
      cancels := scheduler.cancels.filter (fun k => k ≠ goroutine.task.PipelineID)
        ++ [goroutine.task.PipelineID]
      goroutines := scheduler.goroutines.set index { goroutine with started := true } }
  | none => none

/-- The completion of goroutine `index`: `startPipeline` returns (its
deferred deletes empty both registries of the pipeline) and the deferred
`atomic.AddInt64(&scheduler.pipelines, -1)` of `serveTask` runs
(scheduler.go:185-186, 250-253). -/
def Scheduler.pipelineDone (scheduler : Scheduler) (index : Nat) : Option Scheduler :=
  match scheduler.goroutines.get? index with
  | some goroutine =>
    if goroutine.started then
      some { scheduler with
        pipelinesMap :=
          scheduler.pipelinesMap.filter (fun k => k ≠ goroutine.task.PipelineID)
        cancels := scheduler.cancels.filter (fun k => k ≠ goroutine.task.PipelineID)
        pipelines := atomicAddInt64 scheduler.pipelines (-1)
        goroutines := scheduler.goroutines.eraseIdx index }
    else none
  | none => none

/-- The service hands out a `PipelineRun` only when it was told the runner
has capacity. -/
def RespectsCapacity (getTask : List Int → Bool → Key → Option Task × Option Err) : Prop :=
  ∀ ids key task, (getTask ids false key).1 ≠ some (Task.PipelineRun task)

/-- The scheduler states reachable from the initial one by `getAndServe`
steps of the poll loop (against a service that respects capacity) and by the
steps of the pipeline goroutines. -/
inductive Reachable (config : RunnerConfig) : Scheduler → Prop where
  | start : Reachable config (NewScheduler config)
  | getAndServe {scheduler : Scheduler} (produced : Option Key)
      (getTask : List Int → Bool → Key → Option Task × Option Err) :
      Reachable config scheduler → RespectsCapacity getTask →
      Reachable config (scheduler.getAndServe produced getTask).scheduler
  | startPipeline {scheduler next : Scheduler} (index : Nat) :
      Reachable config scheduler → scheduler.startPipeline index = some next →
      Reachable config next
  | pipelineDone {scheduler next : Scheduler} (index : Nat) :
      Reachable config scheduler → scheduler.pipelineDone index = some next →
      Reachable config next

/-! ## Example environment -/

/-- A container provider whose every operation succeeds: the sidecar image
is present, the container `c1` is created, and the pipeline file holds the
first example document. -/
def exampleCloud : Cloud where
  GetImageWithTag := fun _ => (true, none)
  PullImage := fun _ => none
  CreateContainer := fun _ name _ => (some { ID := "c1", Name := name }, none)
  Exec := fun _ _ _ => none
  Cat := fun _ _ _ => ("image: alpine\nstages:\n- build\n", none)
  DestroyContainer := fun _ => none

/-- An environment in which every status update, provider call and job
succeeds; the clock counts the status updates sent so far. -/
def exampleWorld : World where
  yaml := exampleYaml
  client := fun _ _ => none
  now := fun calls => calls.length
  cloud := fun _ => exampleCloud
  randString := fun _ => "abcdefghij"
  jobRun := fun _ _ => none
  parentDone := fun _ => false

/-- A pipeline process for pipeline 1 with the given job identifiers. -/
def exampleProcess (ids : List Int) : ProcessPipeline :=
  NewProcessPipeline { MaxParallelPipelines := 1, PipelinesDir := "/var/lib/pipelines" }
    { PipelineID := 1, Filename := "snake-ci.yaml", ProjectKey := "PRJ",
      RepositorySlug := "repo", CloneURL := "ssh://git@example.com/prj/repo.git",
      Commit := "master", Jobs := ids.map PipelineJob.mk }
    { Private := "private", Public := "public" }

/-- An environment in which the executor of job 11 fails with an error that
is not a cancellation and everything else succeeds. -/
def failingWorld : World :=
  { exampleWorld with
    jobRun := fun _ job => if job.ID = 11 then some (.failure "exit status 1") else none }

/-- An environment in which the service cancels the pipeline while the
executor of job 11 runs: the executor returns a cancellation error, the
scheduler context is not done, and everything else succeeds. -/
def canceledWorld : World :=
  { exampleWorld with
    jobRun := fun _ job => if job.ID = 11 then some .canceled else none }

/-- An environment in which the service cancels the pipeline while the
sidecar of the first job is being served: the provider's `Exec` returns a
cancellation error and the scheduler context is not done. -/
def canceledServingWorld : World :=
  { exampleWorld with
    cloud := fun _ => { exampleCloud with Exec := fun _ _ _ => some .canceled } }

/-- An environment in which the service cancels the pipeline while the config
of the first job is being read: the provider's `Cat` returns a cancellation
error and the scheduler context is not done. -/
def canceledReadingWorld : World :=
  { exampleWorld with
    cloud := fun _ => { exampleCloud with Cat := fun _ _ _ => ("", some .canceled) } }

/-- A sidecar after `Serve`, holding the handle of its container. -/
def exampleSidecar : Sidecar :=
  { name := "pipeline-1-uniq-abcdefghij", pipelinesDir := "/var/lib/pipelines",
    slug := "PRJ/repo", sshKey := { Private := "private", Public := "public" },
    container := some { ID := "c1", Name := "snake-runner-sidecar-pipeline-1-uniq-abcdefghij" },
    containerDir := "/pipelines/PRJ/repo",
    hostSubDir := "/var/lib/pipelines/pipeline-1-uniq-abcdefghij" }

/-- A service that hands out the pipeline of `exampleProcess [10, 11]`
whenever it is told the runner has capacity, and nothing otherwise. -/
def grantingClient : List Int → Bool → Key → Option Task × Option Err :=
  fun _ hasCapacity _ =>
    if hasCapacity then (some (.PipelineRun (exampleProcess [10, 11]).task), none)
    else (none, none)

/-- The scheduler with `MaxParallelPipelines = 1` after one `getAndServe`
against `grantingClient`: one pipeline is running. -/
def busyScheduler : Scheduler :=
  ((NewScheduler { MaxParallelPipelines := 1 }).getAndServe
    (some { Private := "private", Public := "public" }) grantingClient).scheduler

/-- An environment in which the service rejects the final
`UpdatePipeline(SUCCESS)` and everything else succeeds. -/
def rejectingPipelineWorld : World :=
  { exampleWorld with
    client := fun _ call =>
      match call with
      | .UpdatePipeline _ .SUCCESS _ _ => some (.failure "503 service unavailable")
      | _ => none }

/-- An environment in which the service rejects every `UpdateJob(SUCCESS)`
and everything else succeeds. -/
def rejectingJobWorld : World :=
  { exampleWorld with
    client := fun _ call =>
      match call with
      | .UpdateJob _ _ .SUCCESS _ _ => some (.failure "503 service unavailable")
      | _ => none }

/-- An environment in which the executor of the job with identifier `-1`
fails and everything else succeeds. -/
def failingSentinelWorld : World :=
  { exampleWorld with
    jobRun := fun _ job => if job.ID = -1 then some (.failure "exit status 1") else none }

/-! ## Vocabulary of the claims -/

/-- A status update with its instants forgotten: every non-nil time pointer
becomes `some 0`, every nil one stays `none`. -/
def Call.shape : Call → Call
  | .UpdatePipeline id status startedAt finishedAt =>
    .UpdatePipeline id status (startedAt.map (fun _ => 0)) (finishedAt.map (fun _ => 0))
  | .UpdateJob pipelineID jobID status startedAt finishedAt =>
    .UpdateJob pipelineID jobID status (startedAt.map (fun _ => 0))
      (finishedAt.map (fun _ => 0))

/-- Every status update succeeds. -/
def World.clientSucceeds (w : World) : Prop :=
  ∀ calls call, w.client calls call = none

/-- The sidecar serves: `Sidecar.Serve` returns no error. -/
def World.sidecarServes (w : World) : Prop :=
  ∀ calls sidecar cloneURL commitish,
    (Sidecar.Serve (w.cloud calls) sidecar cloneURL commitish).2.2 = none

/-- The pipeline file is read and parses: `readConfig` returns no error. -/
def World.configReads (w : World) : Prop :=
  ∀ process : ProcessPipeline, (process.readConfig w).2 = none

/-- The status a call reports for job `jobID`, if it is an `UpdateJob` for
that job. -/
def Call.jobStatus (jobID : Int) : Call → Option Status
  | .UpdateJob _ id status _ _ => if id = jobID then some status else none
  | .UpdatePipeline _ _ _ _ => none

/-- The status a call reports for the pipeline, if it is an `UpdatePipeline`. -/
def Call.pipelineStatus : Call → Option Status
  | .UpdatePipeline _ status _ _ => some status
  | .UpdateJob _ _ _ _ _ => none

/-- The last status sent for job `jobID` in a trace. -/
def lastJobStatus (calls : List Call) (jobID : Int) : Option Status :=
  (calls.filterMap (Call.jobStatus jobID)).getLast?

/-- The last status sent for the pipeline in a trace. -/
def lastPipelineStatus (calls : List Call) : Option Status :=
  (calls.filterMap Call.pipelineStatus).getLast?

/-- The status a call carries. -/
def Call.status : Call → Status
  | .UpdatePipeline _ status _ _ => status
  | .UpdateJob _ _ status _ _ => status

/-- The terminal job statuses: `SUCCESS`, `FAILED`, `SKIPPED`, `CANCELED`. -/
def Status.terminal : Status → Bool
  | .SUCCESS | .FAILED | .SKIPPED | .CANCELED => true
  | _ => false

/-- An earlier call is kept by a later call: if the earlier one is an
`UpdateJob` carrying a terminal status and the later one is an `UpdateJob`
for the same job, the later one carries the same status. -/
def Call.keeps : Call → Call → Bool
  | .UpdateJob _ jobID status _ _, .UpdateJob _ laterID laterStatus _ _ =>
    decide (status.terminal = true → laterID = jobID → laterStatus = status)
  | _, _ => true

/-- No job status moves backward in a trace: every call is kept by every
later call. -/
def noBackward (calls : List Call) : Prop :=
  calls.Pairwise (fun earlier later => earlier.keeps later = true)

instance (calls : List Call) : Decidable (noBackward calls) := by
  unfold noBackward
  infer_instance

/-- Every status update carrying `SUCCESS` succeeds. -/
def World.acceptsSuccess (w : World) : Prop :=
  ∀ calls call, Call.status call = StatusSuccess → w.client calls call = none

/-- The finish time pointer a call carries (`none` is `nil`). -/
def Call.finishedAt : Call → Option Time
  | .UpdatePipeline _ _ _ finishedAt => finishedAt
  | .UpdateJob _ _ _ _ finishedAt => finishedAt

/-! ## Lemmas on `ProcessPipeline.fail` -/

theorem send_fst (w : World) (process : ProcessPipeline) (call : Call) :
    (process.send w call).1 = { process with calls := process.calls ++ [call] } := rfl

theorem send_snd (w : World) (process : ProcessPipeline) (call : Call) :
    (process.send w call).2 = w.client process.calls call := rfl

/-- With the sentinel `-1` the loop of `fail` sends `FAILED` for every job. -/
theorem fail_loop_sentinel (w : World) (now : Option Time) (jobs : List PipelineJob)
    (found : Bool) (process : ProcessPipeline) :
    ProcessPipeline.fail.loop w (-1) now jobs found process =
      { process with calls := process.calls ++ jobs.map (fun job =>
          Call.UpdateJob process.task.PipelineID job.ID StatusFailed none now) } := by
  induction jobs generalizing process with
  | nil => simp [ProcessPipeline.fail.loop]
  | cons job rest ih =>
    simp [ProcessPipeline.fail.loop, send_fst, ih]

/-- Once the failing job was found, the loop of `fail` sends `SKIPPED` for
every remaining job, none of which carries the failing identifier. -/
theorem fail_loop_found (w : World) (failedID : Int) (now : Option Time)
    (jobs : List PipelineJob) (process : ProcessPipeline)
    (hne : failedID ≠ -1) (hnot : ∀ job ∈ jobs, job.ID ≠ failedID) :
    ProcessPipeline.fail.loop w failedID now jobs true process =
      { process with calls := process.calls ++ jobs.map (fun job =>
          Call.UpdateJob process.task.PipelineID job.ID StatusSkipped none none) } := by
  induction jobs generalizing process with
  | nil => simp [ProcessPipeline.fail.loop]
  | cons job rest ih =>
    have h1 : job.ID ≠ failedID := hnot job (List.mem_cons_self _ _)
    have h2 : ∀ j ∈ rest, j.ID ≠ failedID := fun j hj => hnot j (List.mem_cons_of_mem _ hj)
    simp [ProcessPipeline.fail.loop, send_fst, hne, h1, ih _ h2]

/-- Before the failing job is found the loop of `fail` sends nothing; at the
failing job it sends `FAILED`, then `SKIPPED` for the jobs after it. -/
theorem fail_loop_split (w : World) (now : Option Time)
    (pre : List PipelineJob) (failed : PipelineJob) (post : List PipelineJob)
    (process : ProcessPipeline)
    (hne : failed.ID ≠ -1) (hpre : ∀ job ∈ pre, job.ID ≠ failed.ID)
    (hpost : ∀ job ∈ post, job.ID ≠ failed.ID) :
    ProcessPipeline.fail.loop w failed.ID now (pre ++ failed :: post) false process =
      { process with calls := (process.calls ++
          Call.UpdateJob process.task.PipelineID failed.ID StatusFailed none now ::
            post.map (fun job =>
              Call.UpdateJob process.task.PipelineID job.ID StatusSkipped none none)) } := by
  induction pre generalizing process with
  | nil =>
    simp [ProcessPipeline.fail.loop, send_fst, hne, fail_loop_found w failed.ID now post _ hne hpost]
  | cons job rest ih =>
    have h1 : job.ID ≠ failed.ID := hpre job (List.mem_cons_self _ _)
    have h2 : ∀ j ∈ rest, j.ID ≠ failed.ID := fun j hj => hpre j (List.mem_cons_of_mem _ hj)
    simp [ProcessPipeline.fail.loop, hne, h1, ih _ h2]

/-- The identifiers of a job list split at one job are distinct: the job's
identifier occurs neither before nor after it. -/
theorem nodup_split {pre post : List PipelineJob} {job : PipelineJob}
    (h : ((pre ++ job :: post).map PipelineJob.ID).Nodup) :
    (∀ j ∈ pre, j.ID ≠ job.ID) ∧ (∀ j ∈ post, j.ID ≠ job.ID) := by
  rw [List.map_append, List.map_cons, List.nodup_append] at h
  obtain ⟨_, h2, h3⟩ := h
  rw [List.nodup_cons] at h2
  constructor
  · intro j hj heq
    exact h3 (List.mem_map_of_mem _ hj) (by rw [heq]; exact List.mem_cons_self _ _)
  · intro j hj heq
    exact h2.1 (by rw [← heq]; exact List.mem_map_of_mem _ hj)

/-- The status updates `fail` sends for a failing job that is in the list. -/
theorem fail_calls_of_split (w : World) (process : ProcessPipeline)
    (pre : List PipelineJob) (failed : PipelineJob) (post : List PipelineJob)
    (hjobs : process.task.Jobs = pre ++ failed :: post)
    (hnodup : (process.task.Jobs.map PipelineJob.ID).Nodup)
    (hne : failed.ID ≠ -1) :
    process.fail w failed.ID = { process with calls := (process.calls ++
      (Call.UpdateJob process.task.PipelineID failed.ID StatusFailed none
          (some (w.now process.calls)) ::
        post.map (fun job =>
          Call.UpdateJob process.task.PipelineID job.ID StatusSkipped none none)) ++
      [Call.UpdatePipeline process.task.PipelineID StatusFailed none
          (some (w.now process.calls))]) } := by
  rw [hjobs] at hnodup
  obtain ⟨hpre, hpost⟩ := nodup_split hnodup
  simp [ProcessPipeline.fail, hjobs, fail_loop_split w _ pre failed post process hne hpre hpost,
    send_fst]

/-- The status updates `fail` sends for the sentinel `-1`. -/
theorem fail_calls_sentinel (w : World) (process : ProcessPipeline) :
    process.fail w (-1) = { process with calls := (process.calls ++
      process.task.Jobs.map (fun job =>
        Call.UpdateJob process.task.PipelineID job.ID StatusFailed none
          (some (w.now process.calls))) ++
      [Call.UpdatePipeline process.task.PipelineID StatusFailed none
          (some (w.now process.calls))]) } := by
  simp [ProcessPipeline.fail, fail_loop_sentinel, send_fst]

/-! ## Claims -/

/-- C1. For every answer of the service to each status update, and every
job list whose identifiers are pairwise distinct and different from `-1`:
for each job `J` of the list, `fail(J.ID)` sends exactly `UpdateJob(J,
FAILED)`, then `UpdateJob(j, SKIPPED)` for each job `j` after `J` in
delivered order, then one `UpdatePipeline(FAILED)`, and nothing for the jobs
before `J`; and `fail(-1)` sends `UpdateJob(j, FAILED)` for every job in
delivered order and then one `UpdatePipeline(FAILED)`. -/
theorem fail_issues_exactly (w : World) (process : ProcessPipeline)
    (hnodup : (process.task.Jobs.map PipelineJob.ID).Nodup)
    (hids : ∀ job ∈ process.task.Jobs, job.ID ≠ -1) :
    (∀ pre failed post, process.task.Jobs = pre ++ failed :: post →
      (process.fail w failed.ID).calls = process.calls ++
        (Call.UpdateJob process.task.PipelineID failed.ID StatusFailed none
            (some (w.now process.calls)) ::
          post.map (fun job =>
            Call.UpdateJob process.task.PipelineID job.ID StatusSkipped none none)) ++
        [Call.UpdatePipeline process.task.PipelineID StatusFailed none
            (some (w.now process.calls))]) ∧
    (process.fail w (-1)).calls = process.calls ++
      process.task.Jobs.map (fun job =>
        Call.UpdateJob process.task.PipelineID job.ID StatusFailed none
          (some (w.now process.calls))) ++
      [Call.UpdatePipeline process.task.PipelineID StatusFailed none
          (some (w.now process.calls))] := by
  constructor
  · intro pre failed post hjobs
    have hne : failed.ID ≠ -1 := hids failed (by rw [hjobs]; simp)
    rw [fail_calls_of_split w process pre failed post hjobs hnodup hne]
  · rw [fail_calls_sentinel]

/-- C1 at jobs `[10, 11, 12]`: failing job 11 sends `11:FAILED`,
`12:SKIPPED`, pipeline `FAILED`; the sentinel fails all three jobs. -/
theorem fail_issues_exactly_witness :
    ((exampleProcess [10, 11, 12]).fail exampleWorld 11).calls =
      [Call.UpdateJob 1 11 .FAILED none (some 0), Call.UpdateJob 1 12 .SKIPPED none none,
        Call.UpdatePipeline 1 .FAILED none (some 0)] ∧
    ((exampleProcess [10, 11, 12]).fail exampleWorld (-1)).calls =
      [Call.UpdateJob 1 10 .FAILED none (some 0), Call.UpdateJob 1 11 .FAILED none (some 0),
        Call.UpdateJob 1 12 .FAILED none (some 0),
        Call.UpdatePipeline 1 .FAILED none (some 0)] :=
  have h := fail_issues_exactly exampleWorld (exampleProcess [10, 11, 12])
    (by decide) (by decide)
  ⟨h.1 [⟨10⟩] ⟨11⟩ [⟨12⟩] rfl, h.2⟩

/-! ## Lemmas on `runJob` and `runJobs` -/

theorem readConfig_calls (w : World) (process : ProcessPipeline) :
    (process.readConfig w).1.calls = process.calls ∧
      (process.readConfig w).1.task = process.task := by
  unfold ProcessPipeline.readConfig
  simp only []
  split <;> simp

theorem execute_fst (w : World) (process : ProcessPipeline) (target : PipelineJob) :
    (ProcessPipeline.runJob.execute w process target).1 = process := by
  unfold ProcessPipeline.runJob.execute
  split
  · split
    · split <;> rfl
    · rfl
  · rfl

/-- When the `RUNNING` update succeeds and the sidecar and config are
available (the sidecar exists already, or it serves and the config reads),
`runJob` reaches the job executor having sent the `RUNNING` update only. -/
theorem runJob_reaches_execute (w : World) (process : ProcessPipeline) (target : PipelineJob)
    (hrun : w.client process.calls
      (.UpdateJob process.task.PipelineID target.ID StatusRunning
        (some (w.now process.calls)) none) = none)
    (havail : process.sidecar.isSome ∨ (w.sidecarServes ∧ w.configReads)) :
    ∃ next : ProcessPipeline,
      process.runJob w target = ProcessPipeline.runJob.execute w next target ∧
      next.task = process.task ∧
      next.calls = process.calls ++
        [.UpdateJob process.task.PipelineID target.ID StatusRunning
          (some (w.now process.calls)) none] := by
  unfold ProcessPipeline.runJob
  simp only [ProcessPipeline.send, hrun]
  cases hside : process.sidecar with
  | some sidecar => exact ⟨_, rfl, rfl, rfl⟩
  | none =>
    rw [hside] at havail
    rcases havail with h | ⟨hs, hr⟩
    · simp at h
    · simp only [hs _ _ _ _]
      generalize hq : ({ process with
        calls := process.calls ++ [Call.UpdateJob process.task.PipelineID target.ID
          StatusRunning (some (w.now process.calls)) none],
        sidecar := _, cloudCalls := _ } : ProcessPipeline) = q
      have h1 := hr q
      have h2 := readConfig_calls w q
      rcases hrc : q.readConfig w with ⟨q2, e⟩
      rw [hrc] at h1 h2
      simp only at h1 h2
      subst h1
      refine ⟨q2, rfl, ?_, ?_⟩
      · rw [h2.2, ← hq]
      · rw [h2.1, ← hq]

theorem fail_task (w : World) (process : ProcessPipeline) (failedID : Int) :
    (process.fail w failedID).task = process.task := by
  have hloop : ∀ (jobs : List PipelineJob) (now : Option Time) (found : Bool)
      (q : ProcessPipeline),
      (ProcessPipeline.fail.loop w failedID now jobs found q).task = q.task := by
    intro jobs now
    induction jobs with
    | nil => intro found q; rfl
    | cons job rest ih =>
      intro found q
      unfold ProcessPipeline.fail.loop
      split
      · rw [ih]; rfl
      · split
        · rw [ih]; rfl
        · split
          · rw [ih]
          · rw [ih]; rfl
  unfold ProcessPipeline.fail
  simp only [send_fst]
  exact hloop _ _ _ _

theorem destroy_calls (w : World) (process : ProcessPipeline) :
    (process.destroy w).calls = process.calls := by
  unfold ProcessPipeline.destroy
  split <;> rfl

theorem destroy_status (w : World) (process : ProcessPipeline) :
    (process.destroy w).status = process.status := by
  unfold ProcessPipeline.destroy
  split <;> rfl

/-- One turn of the loop of `runJobs` for a job that succeeds: the
`RUNNING` and the `SUCCESS` update are sent and the loop goes on. -/
theorem runJobs_loop_cons_success (w : World) (process : ProcessPipeline)
    (job : PipelineJob) (rest : List PipelineJob)
    (hc : w.clientSucceeds) (hs : w.sidecarServes) (hr : w.configReads)
    (hjob : ∀ calls, w.jobRun calls job = none) :
    ∃ next : ProcessPipeline,
      ProcessPipeline.runJobs.loop w (job :: rest) process =
        ProcessPipeline.runJobs.loop w rest next ∧
      next.task = process.task ∧
      next.calls.map Call.shape = process.calls.map Call.shape ++
        [.UpdateJob process.task.PipelineID job.ID StatusRunning (some 0) none,
         .UpdateJob process.task.PipelineID job.ID StatusSuccess none (some 0)] := by
  obtain ⟨q, hq, htask, hcalls⟩ :=
    runJob_reaches_execute w process job (hc _ _) (Or.inr ⟨hs, hr⟩)
  have hexec : ProcessPipeline.runJob.execute w q job = (q, StatusSuccess, none) := by
    unfold ProcessPipeline.runJob.execute
    rw [hjob]
  refine ⟨(q.send w (.UpdateJob q.task.PipelineID job.ID StatusSuccess none
      (some (w.now q.calls)))).1, ?_, ?_, ?_⟩
  · rw [ProcessPipeline.runJobs.loop, hq, hexec]
    simp [ProcessPipeline.send, hc _ _]
  · rw [send_fst]; exact htask
  · rw [send_fst]
    simp [hcalls, htask, Call.shape]

/-- The loop of `runJobs` over a prefix of succeeding jobs sends `RUNNING`
then `SUCCESS` for each of them, in order, and goes on with the rest. -/
theorem runJobs_loop_success_prefix (w : World)
    (hc : w.clientSucceeds) (hs : w.sidecarServes) (hr : w.configReads)
    (pre rest : List PipelineJob) (process : ProcessPipeline)
    (hjobs : ∀ calls, ∀ job ∈ pre, w.jobRun calls job = none) :
    ∃ next : ProcessPipeline,
      ProcessPipeline.runJobs.loop w (pre ++ rest) process =
        ProcessPipeline.runJobs.loop w rest next ∧
      next.task = process.task ∧
      next.calls.map Call.shape = process.calls.map Call.shape ++
        pre.flatMap (fun job =>
          [.UpdateJob process.task.PipelineID job.ID StatusRunning (some 0) none,
           .UpdateJob process.task.PipelineID job.ID StatusSuccess none (some 0)]) := by
  induction pre generalizing process with
  | nil => exact ⟨process, rfl, rfl, by simp⟩
  | cons job more ih =>
    obtain ⟨q, hq, htask, hcalls⟩ := runJobs_loop_cons_success w process job (more ++ rest)
      hc hs hr (fun calls => hjobs calls job (List.mem_cons_self _ _))
    obtain ⟨next, hnext, htask2, hcalls2⟩ :=
      ih q (fun calls j hj => hjobs calls j (List.mem_cons_of_mem _ hj))
    refine ⟨next, ?_, ?_, ?_⟩
    · rw [List.cons_append, hq, hnext]
    · rw [htask2, htask]
    · rw [hcalls2, hcalls, htask]
      simp

/-- When the pipeline's `RUNNING` update succeeds and a prefix of the jobs
succeeds, `run` has sent the pipeline update and `RUNNING`, `SUCCESS` for
each job of the prefix, and goes on with the remaining jobs. -/
theorem run_body_of_prefix (w : World)
    (hc : w.clientSucceeds) (hs : w.sidecarServes) (hr : w.configReads)
    (process : ProcessPipeline) (pre rest : List PipelineJob)
    (hsplit : process.task.Jobs = pre ++ rest)
    (hjobs : ∀ calls, ∀ job ∈ pre, w.jobRun calls job = none) :
    ∃ next : ProcessPipeline,
      ProcessPipeline.run.body w process =
        ProcessPipeline.run.finish w (ProcessPipeline.runJobs.loop w rest next) ∧
      next.task = process.task ∧
      next.calls.map Call.shape = process.calls.map Call.shape ++
        Call.UpdatePipeline process.task.PipelineID StatusRunning (some 0) none ::
        pre.flatMap (fun job =>
          [.UpdateJob process.task.PipelineID job.ID StatusRunning (some 0) none,
           .UpdateJob process.task.PipelineID job.ID StatusSuccess none (some 0)]) := by
  obtain ⟨next, hnext, htask, hcalls⟩ := runJobs_loop_success_prefix w hc hs hr pre rest
    (process.send w (.UpdatePipeline process.task.PipelineID StatusRunning
      (some (w.now process.calls)) none)).1 hjobs
  refine ⟨next, ?_, ?_, ?_⟩
  · have hsend : process.send w (.UpdatePipeline process.task.PipelineID StatusRunning
        (some (w.now process.calls)) none) =
        ((process.send w (.UpdatePipeline process.task.PipelineID StatusRunning
          (some (w.now process.calls)) none)).1, none) := by
      simp [ProcessPipeline.send, hc _ _]
    rw [ProcessPipeline.run.body, hsend]
    simp only [ProcessPipeline.runJobs]
    rw [← hnext, send_fst, hsplit]
  · rw [htask, send_fst]
  · rw [hcalls, send_fst]
    simp [Call.shape]

/-- C2. For every job list, the empty one included: if every status update
succeeds, the sidecar serves, the config reads and parses, and the executor
of every job returns no error, then `run` returns no error and sends exactly
`UpdatePipeline(P, RUNNING, start, nil)`, then for each job in delivered
order `UpdateJob(P, J, RUNNING, start, nil)` directly followed by
`UpdateJob(P, J, SUCCESS, nil, finish)`, then `UpdatePipeline(P, SUCCESS, nil,
finish)`, where every `start` and `finish` shown is non-nil. -/
theorem run_happy_path (w : World) (runnerConfig : RunnerConfig) (task : PipelineRun)
    (sshKey : Key) (hc : w.clientSucceeds) (hs : w.sidecarServes) (hr : w.configReads)
    (hjobs : ∀ calls, ∀ job ∈ task.Jobs, w.jobRun calls job = none) :
    ((NewProcessPipeline runnerConfig task sshKey).run w).2 = none ∧
    ((NewProcessPipeline runnerConfig task sshKey).run w).1.calls.map Call.shape =
      Call.UpdatePipeline task.PipelineID StatusRunning (some 0) none ::
        task.Jobs.flatMap (fun job =>
          [.UpdateJob task.PipelineID job.ID StatusRunning (some 0) none,
           .UpdateJob task.PipelineID job.ID StatusSuccess none (some 0)]) ++
      [Call.UpdatePipeline task.PipelineID StatusSuccess none (some 0)] := by
  obtain ⟨next, hbody, htask, hcalls⟩ := run_body_of_prefix w hc hs hr
    (NewProcessPipeline runnerConfig task sshKey) task.Jobs [] (by simp [NewProcessPipeline])
    hjobs
  have hfin : ProcessPipeline.run.finish w (ProcessPipeline.runJobs.loop w [] next) =
      Prod.mk ({ next with
        status := some StatusSuccess
        calls := next.calls ++ [.UpdatePipeline next.task.PipelineID StatusSuccess none
          (some (w.now next.calls))] } : ProcessPipeline) none := by
    simp [ProcessPipeline.run.finish, ProcessPipeline.runJobs.loop, ProcessPipeline.send,
      hc _ _]
  rw [ProcessPipeline.run, hbody, hfin]
  refine ⟨rfl, ?_⟩
  rw [destroy_calls]
  simp [hcalls, htask, NewProcessPipeline, Call.shape]

/-- C2 at jobs `[10, 11]` in the environment where everything succeeds. -/
theorem run_happy_path_witness :
    ((exampleProcess [10, 11]).run exampleWorld).2 = none ∧
    ((exampleProcess [10, 11]).run exampleWorld).1.calls.map Call.shape =
      [Call.UpdatePipeline 1 .RUNNING (some 0) none,
        Call.UpdateJob 1 10 .RUNNING (some 0) none, Call.UpdateJob 1 10 .SUCCESS none (some 0),
        Call.UpdateJob 1 11 .RUNNING (some 0) none, Call.UpdateJob 1 11 .SUCCESS none (some 0),
        Call.UpdatePipeline 1 .SUCCESS none (some 0)] :=
  run_happy_path exampleWorld _ _ _ (fun _ _ => rfl) (fun _ _ _ _ => rfl) (fun _ => rfl)
    (fun _ _ _ => rfl)

/-! ## Lemmas on traces -/

theorem jobStatus_shape (jobID : Int) (call : Call) :
    call.shape.jobStatus jobID = call.jobStatus jobID := by
  cases call <;> rfl

theorem pipelineStatus_shape (call : Call) :
    call.shape.pipelineStatus = call.pipelineStatus := by
  cases call <;> rfl

theorem lastJobStatus_shape (calls : List Call) (jobID : Int) :
    lastJobStatus (calls.map Call.shape) jobID = lastJobStatus calls jobID := by
  unfold lastJobStatus
  rw [List.filterMap_map]
  congr 1
  apply List.filterMap_congr
  intro call _
  exact jobStatus_shape jobID call

theorem lastPipelineStatus_shape (calls : List Call) :
    lastPipelineStatus (calls.map Call.shape) = lastPipelineStatus calls := by
  unfold lastPipelineStatus
  rw [List.filterMap_map]
  congr 1
  apply List.filterMap_congr
  intro call _
  exact pipelineStatus_shape call

/-- The updates of succeeding jobs report nothing for a job outside them. -/
theorem filterMap_succeeded_of_not_mem (pid jobID : Int) (jobs : List PipelineJob)
    (h : ∀ job ∈ jobs, job.ID ≠ jobID) :
    (jobs.flatMap (fun job =>
      [Call.UpdateJob pid job.ID StatusRunning (some 0) none,
       Call.UpdateJob pid job.ID StatusSuccess none (some 0)])).filterMap
      (Call.jobStatus jobID) = [] := by
  induction jobs with
  | nil => rfl
  | cons job rest ih =>
    have h1 : job.ID ≠ jobID := h job (List.mem_cons_self _ _)
    have h2 := ih (fun j hj => h j (List.mem_cons_of_mem _ hj))
    simp only [List.flatMap_cons, List.filterMap_append, h2]
    simp [List.filterMap_cons, Call.jobStatus, h1]

/-- The updates of succeeding jobs report `RUNNING`, `SUCCESS` for each. -/
theorem filterMap_succeeded_of_mem (pid : Int) (jobs : List PipelineJob)
    (hnodup : (jobs.map PipelineJob.ID).Nodup) (job : PipelineJob) (hmem : job ∈ jobs) :
    (jobs.flatMap (fun job =>
      [Call.UpdateJob pid job.ID StatusRunning (some 0) none,
       Call.UpdateJob pid job.ID StatusSuccess none (some 0)])).filterMap
      (Call.jobStatus job.ID) = [StatusRunning, StatusSuccess] := by
  obtain ⟨pre, post, rfl⟩ := List.append_of_mem hmem
  obtain ⟨hpre, hpost⟩ := nodup_split hnodup
  simp only [List.flatMap_append, List.flatMap_cons, List.filterMap_append,
    filterMap_succeeded_of_not_mem pid job.ID pre hpre,
    filterMap_succeeded_of_not_mem pid job.ID post hpost]
  simp [List.filterMap_cons, Call.jobStatus]

/-- The updates of one status for a list of jobs report nothing for a job
outside the list. -/
theorem filterMap_map_of_not_mem (pid jobID : Int) (status : Status)
    (startedAt finishedAt : Option Time) (jobs : List PipelineJob)
    (h : ∀ job ∈ jobs, job.ID ≠ jobID) :
    (jobs.map (fun job =>
      Call.UpdateJob pid job.ID status startedAt finishedAt)).filterMap
      (Call.jobStatus jobID) = [] := by
  induction jobs with
  | nil => rfl
  | cons job rest ih =>
    have h1 : job.ID ≠ jobID := h job (List.mem_cons_self _ _)
    have h2 := ih (fun j hj => h j (List.mem_cons_of_mem _ hj))
    simp only [List.map_cons, List.filterMap_cons, Call.jobStatus, h1, if_false, h2]

/-- The updates of one status for a list of jobs with distinct identifiers
report that status once for each job of the list. -/
theorem filterMap_map_of_mem (pid : Int) (status : Status)
    (startedAt finishedAt : Option Time) (jobs : List PipelineJob)
    (hnodup : (jobs.map PipelineJob.ID).Nodup) (job : PipelineJob) (hmem : job ∈ jobs) :
    (jobs.map (fun job =>
      Call.UpdateJob pid job.ID status startedAt finishedAt)).filterMap
      (Call.jobStatus job.ID) = [status] := by
  obtain ⟨pre, post, rfl⟩ := List.append_of_mem hmem
  obtain ⟨hpre, hpost⟩ := nodup_split hnodup
  simp only [List.map_append, List.map_cons, List.filterMap_append, List.filterMap_cons,
    filterMap_map_of_not_mem pid job.ID status startedAt finishedAt pre hpre,
    filterMap_map_of_not_mem pid job.ID status startedAt finishedAt post hpost]
  simp [Call.jobStatus]

/-- One turn of the loop of `runJobs` for a job whose executor returns an
error that is not a cancellation: after the `RUNNING` update the failure is
propagated with `fail` and the loop stops with `FAILED` and the error. -/
theorem runJobs_loop_cons_failed (w : World) (process : ProcessPipeline)
    (job : PipelineJob) (rest : List PipelineJob)
    (hc : w.clientSucceeds) (hs : w.sidecarServes) (hr : w.configReads)
    (hjob : ∀ calls, ∃ err, w.jobRun calls job = some err ∧ IsCanceled err = false) :
    ∃ (next : ProcessPipeline) (err : Err),
      ProcessPipeline.runJobs.loop w (job :: rest) process =
        (next.fail w job.ID, StatusFailed, some err) ∧
      next.task = process.task ∧
      next.calls = process.calls ++
        [.UpdateJob process.task.PipelineID job.ID StatusRunning
          (some (w.now process.calls)) none] := by
  obtain ⟨q, hq, htask, hcalls⟩ :=
    runJob_reaches_execute w process job (hc _ _) (Or.inr ⟨hs, hr⟩)
  obtain ⟨err, herr, hnc⟩ := hjob q.calls
  have hexec : ProcessPipeline.runJob.execute w q job = (q, StatusFailed, some err) := by
    unfold ProcessPipeline.runJob.execute
    rw [herr]
    simp [hnc]
  refine ⟨q, err, ?_, htask, hcalls⟩
  rw [ProcessPipeline.runJobs.loop, hq, hexec]
  simp

/-- The status updates of a run in which the jobs `pre` succeed and the
executor of the next job fails: the shape of the whole trace. -/
theorem run_calls_of_failure (w : World) (runnerConfig : RunnerConfig) (task : PipelineRun)
    (sshKey : Key) (pre : List PipelineJob) (failed : PipelineJob) (post : List PipelineJob)
    (hsplit : task.Jobs = pre ++ failed :: post)
    (hnodup : (task.Jobs.map PipelineJob.ID).Nodup)
    (hids : ∀ job ∈ task.Jobs, job.ID ≠ -1)
    (hc : w.clientSucceeds) (hs : w.sidecarServes) (hr : w.configReads)
    (hpre : ∀ calls, ∀ job ∈ pre, w.jobRun calls job = none)
    (hfail : ∀ calls, ∃ err, w.jobRun calls failed = some err ∧ IsCanceled err = false) :
    ((NewProcessPipeline runnerConfig task sshKey).run w).2 ≠ none ∧
    ((NewProcessPipeline runnerConfig task sshKey).run w).1.calls.map Call.shape =
      Call.UpdatePipeline task.PipelineID StatusRunning (some 0) none ::
        pre.flatMap (fun job =>
          [.UpdateJob task.PipelineID job.ID StatusRunning (some 0) none,
           .UpdateJob task.PipelineID job.ID StatusSuccess none (some 0)]) ++
      [Call.UpdateJob task.PipelineID failed.ID StatusRunning (some 0) none,
       Call.UpdateJob task.PipelineID failed.ID StatusFailed none (some 0)] ++
      post.map (fun job => Call.UpdateJob task.PipelineID job.ID StatusSkipped none none) ++
      [Call.UpdatePipeline task.PipelineID StatusFailed none (some 0)] := by
  obtain ⟨next, hbody, htask, hcalls⟩ := run_body_of_prefix w hc hs hr
    (NewProcessPipeline runnerConfig task sshKey) pre (failed :: post) hsplit hpre
  obtain ⟨q, err, hloop, htask2, hcalls2⟩ :=
    runJobs_loop_cons_failed w next failed post hc hs hr hfail
  have hqtask : q.task = task := by rw [htask2, htask]; rfl
  have hne : failed.ID ≠ -1 := hids failed (by rw [hsplit]; simp)
  have hfailed := fail_calls_of_split w q pre failed post (by rw [hqtask, hsplit])
    (by rw [hqtask]; exact hnodup) hne
  rw [ProcessPipeline.run, hbody, hloop, hfailed]
  refine ⟨by simp [ProcessPipeline.run.finish], ?_⟩
  rw [destroy_calls]
  simp only [ProcessPipeline.run.finish]
  simp [hcalls, hcalls2, htask, hqtask, NewProcessPipeline, Call.shape]

theorem filterMap_jobStatus_shape (calls : List Call) (jobID : Int) :
    (calls.map Call.shape).filterMap (Call.jobStatus jobID) =
      calls.filterMap (Call.jobStatus jobID) := by
  rw [List.filterMap_map]
  apply List.filterMap_congr
  intro call _
  exact jobStatus_shape jobID call

theorem filterMap_pipelineStatus_shape (calls : List Call) :
    (calls.map Call.shape).filterMap Call.pipelineStatus =
      calls.filterMap Call.pipelineStatus := by
  rw [List.filterMap_map]
  apply List.filterMap_congr
  intro call _
  exact pipelineStatus_shape call

theorem filterMap_pipelineStatus_succeeded (pid : Int) (jobs : List PipelineJob) :
    (jobs.flatMap (fun job =>
      [Call.UpdateJob pid job.ID StatusRunning (some 0) none,
       Call.UpdateJob pid job.ID StatusSuccess none (some 0)])).filterMap
      Call.pipelineStatus = [] := by
  induction jobs with
  | nil => rfl
  | cons job rest ih =>
    simp only [List.flatMap_cons, List.filterMap_append, ih]
    simp [List.filterMap_cons, Call.pipelineStatus]

theorem filterMap_pipelineStatus_map (pid : Int) (status : Status)
    (startedAt finishedAt : Option Time) (jobs : List PipelineJob) :
    (jobs.map (fun job =>
      Call.UpdateJob pid job.ID status startedAt finishedAt)).filterMap
      Call.pipelineStatus = [] := by
  induction jobs with
  | nil => rfl
  | cons job rest ih =>
    simp only [List.map_cons, List.filterMap_cons, Call.pipelineStatus, ih]

/-- Distinct identifiers over a list split at one job: each part has
distinct identifiers and no identifier occurs in two parts. -/
theorem nodup_parts {pre post : List PipelineJob} {job : PipelineJob}
    (h : ((pre ++ job :: post).map PipelineJob.ID).Nodup) :
    (pre.map PipelineJob.ID).Nodup ∧ (post.map PipelineJob.ID).Nodup ∧
      (∀ a ∈ pre, ∀ b ∈ post, a.ID ≠ b.ID) := by
  rw [List.map_append, List.map_cons, List.nodup_append] at h
  obtain ⟨h1, h2, h3⟩ := h
  rw [List.nodup_cons] at h2
  refine ⟨h1, h2.2, ?_⟩
  intro a ha b hb heq
  exact h3 (List.mem_map_of_mem _ ha)
    (List.mem_cons_of_mem _ (by rw [heq]; exact List.mem_map_of_mem _ hb))

/-- The statuses sent, in order, for each job and for the pipeline in a run
whose jobs `pre` succeed and whose next job fails in its executor. -/
theorem run_statuses_of_failure (w : World) (runnerConfig : RunnerConfig) (task : PipelineRun)
    (sshKey : Key) (pre : List PipelineJob) (failed : PipelineJob) (post : List PipelineJob)
    (hsplit : task.Jobs = pre ++ failed :: post)
    (hnodup : (task.Jobs.map PipelineJob.ID).Nodup)
    (hids : ∀ job ∈ task.Jobs, job.ID ≠ -1)
    (hc : w.clientSucceeds) (hs : w.sidecarServes) (hr : w.configReads)
    (hpre : ∀ calls, ∀ job ∈ pre, w.jobRun calls job = none)
    (hfail : ∀ calls, ∃ err, w.jobRun calls failed = some err ∧ IsCanceled err = false) :
    (∀ job ∈ pre, ((NewProcessPipeline runnerConfig task sshKey).run w).1.calls.filterMap
      (Call.jobStatus job.ID) = [StatusRunning, StatusSuccess]) ∧
    ((NewProcessPipeline runnerConfig task sshKey).run w).1.calls.filterMap
      (Call.jobStatus failed.ID) = [StatusRunning, StatusFailed] ∧
    (∀ job ∈ post, ((NewProcessPipeline runnerConfig task sshKey).run w).1.calls.filterMap
      (Call.jobStatus job.ID) = [StatusSkipped]) ∧
    ((NewProcessPipeline runnerConfig task sshKey).run w).1.calls.filterMap
      Call.pipelineStatus = [StatusRunning, StatusFailed] := by
  have hshape := (run_calls_of_failure w runnerConfig task sshKey pre failed post hsplit hnodup
    hids hc hs hr hpre hfail).2
  rw [hsplit] at hnodup
  obtain ⟨hpreF, hpostF⟩ := nodup_split hnodup
  obtain ⟨hpreN, hpostN, hcross⟩ := nodup_parts hnodup
  refine ⟨?_, ?_, ?_, ?_⟩
  · intro job hjob
    rw [← filterMap_jobStatus_shape, hshape]
    simp only [List.filterMap_append, List.filterMap_cons,
      filterMap_succeeded_of_mem task.PipelineID pre hpreN job hjob,
      filterMap_map_of_not_mem task.PipelineID job.ID StatusSkipped none none post
        (fun b hb => (hcross job hjob b hb).symm)]
    simp [Call.jobStatus, (hpreF job hjob).symm]
  · rw [← filterMap_jobStatus_shape, hshape]
    simp only [List.filterMap_append, List.filterMap_cons,
      filterMap_succeeded_of_not_mem task.PipelineID failed.ID pre hpreF,
      filterMap_map_of_not_mem task.PipelineID failed.ID StatusSkipped none none post hpostF]
    simp [Call.jobStatus]
  · intro job hjob
    rw [← filterMap_jobStatus_shape, hshape]
    simp only [List.filterMap_append, List.filterMap_cons,
      filterMap_succeeded_of_not_mem task.PipelineID job.ID pre
        (fun a ha => hcross a ha job hjob),
      filterMap_map_of_mem task.PipelineID StatusSkipped none none post hpostN job hjob]
    simp [Call.jobStatus, (hpostF job hjob).symm]
  · rw [← filterMap_pipelineStatus_shape, hshape]
    simp only [List.filterMap_append, List.filterMap_cons,
      filterMap_pipelineStatus_succeeded, filterMap_pipelineStatus_map]
    simp [Call.pipelineStatus]

/-- C3. For every job list with pairwise distinct identifiers, none equal to
`-1`, and every position in it: if every status update succeeds, the sidecar
serves and the config reads, the jobs before that position execute without
error and the executor of the job at that position returns an error that is
not a cancellation, then `run` returns an error, the last status sent is
`SUCCESS` for each job before it, `FAILED` for the job itself and `SKIPPED`
for each job after it, the last pipeline status sent is `FAILED`, and no
`UpdateJob(RUNNING)` is sent for a job after it. -/
theorem run_job_failure (w : World) (runnerConfig : RunnerConfig) (task : PipelineRun)
    (sshKey : Key) (pre : List PipelineJob) (failed : PipelineJob) (post : List PipelineJob)
    (hsplit : task.Jobs = pre ++ failed :: post)
    (hnodup : (task.Jobs.map PipelineJob.ID).Nodup)
    (hids : ∀ job ∈ task.Jobs, job.ID ≠ -1)
    (hc : w.clientSucceeds) (hs : w.sidecarServes) (hr : w.configReads)
    (hpre : ∀ calls, ∀ job ∈ pre, w.jobRun calls job = none)
    (hfail : ∀ calls, ∃ err, w.jobRun calls failed = some err ∧ IsCanceled err = false) :
    ((NewProcessPipeline runnerConfig task sshKey).run w).2 ≠ none ∧
    (∀ job ∈ pre, lastJobStatus ((NewProcessPipeline runnerConfig task sshKey).run w).1.calls
      job.ID = some StatusSuccess) ∧
    lastJobStatus ((NewProcessPipeline runnerConfig task sshKey).run w).1.calls failed.ID =
      some StatusFailed ∧
    (∀ job ∈ post, lastJobStatus ((NewProcessPipeline runnerConfig task sshKey).run w).1.calls
      job.ID = some StatusSkipped) ∧
    lastPipelineStatus ((NewProcessPipeline runnerConfig task sshKey).run w).1.calls =
      some StatusFailed ∧
    (∀ job ∈ post, ∀ call ∈ ((NewProcessPipeline runnerConfig task sshKey).run w).1.calls,
      call.jobStatus job.ID ≠ some StatusRunning) := by
  obtain ⟨h1, h2, h3, h4⟩ := run_statuses_of_failure w runnerConfig task sshKey pre failed post
    hsplit hnodup hids hc hs hr hpre hfail
  refine ⟨(run_calls_of_failure w runnerConfig task sshKey pre failed post hsplit hnodup
    hids hc hs hr hpre hfail).1, ?_, ?_, ?_, ?_, ?_⟩
  · intro job hjob
    simp [lastJobStatus, h1 job hjob]
  · simp [lastJobStatus, h2]
  · intro job hjob
    simp [lastJobStatus, h3 job hjob]
  · simp [lastPipelineStatus, h4]
  · intro job hjob call hcall hrunning
    have hmem : StatusRunning ∈ ((NewProcessPipeline runnerConfig task sshKey).run w).1.calls.filterMap
        (Call.jobStatus job.ID) := List.mem_filterMap.mpr ⟨call, hcall, hrunning⟩
    rw [h3 job hjob] at hmem
    simp at hmem

/-- C3 at jobs `[10, 11, 12]` with job 11 failing. -/
theorem run_job_failure_witness :
    ((exampleProcess [10, 11, 12]).run failingWorld).2 ≠ none ∧
    (∀ job ∈ [PipelineJob.mk 10],
      lastJobStatus ((exampleProcess [10, 11, 12]).run failingWorld).1.calls job.ID =
        some .SUCCESS) ∧
    lastJobStatus ((exampleProcess [10, 11, 12]).run failingWorld).1.calls 11 = some .FAILED ∧
    (∀ job ∈ [PipelineJob.mk 12],
      lastJobStatus ((exampleProcess [10, 11, 12]).run failingWorld).1.calls job.ID =
        some .SKIPPED) ∧
    lastPipelineStatus ((exampleProcess [10, 11, 12]).run failingWorld).1.calls =
      some .FAILED ∧
    (∀ job ∈ [PipelineJob.mk 12],
      ∀ call ∈ ((exampleProcess [10, 11, 12]).run failingWorld).1.calls,
        call.jobStatus job.ID ≠ some .RUNNING) :=
  run_job_failure failingWorld _ _ _ [⟨10⟩] ⟨11⟩ [⟨12⟩] rfl (by decide) (by decide)
    (fun _ _ => rfl) (fun _ _ _ _ => rfl) (fun _ => rfl)
    (fun _ job hjob => by simp at hjob; subst hjob; rfl)
    (fun _ => ⟨.failure "exit status 1", rfl, rfl⟩)

/-- C4. Once the `RUNNING` update of the job has succeeded and the sidecar
and config are available (the sidecar exists already, or it serves and the
config reads), the status `runJob` returns is decided by the error `err` of
the job executor and by the parent context alone: `SUCCESS` iff `err` is nil;
`CANCELED` iff `err` derives from cancellation and `parentCtx` is not done;
`FAILED` iff `err` is not nil and either does not derive from cancellation or
`parentCtx` is done.  The error `runJob` returns is non-nil exactly when the
status is not `SUCCESS`. -/
theorem runJob_status (w : World) (process : ProcessPipeline) (target : PipelineJob)
    (hrun : w.client process.calls
      (.UpdateJob process.task.PipelineID target.ID StatusRunning
        (some (w.now process.calls)) none) = none)
    (havail : process.sidecar.isSome ∨ (w.sidecarServes ∧ w.configReads)) :
    ((process.runJob w target).2.1 = StatusSuccess ↔
      w.jobRun (process.calls ++ [.UpdateJob process.task.PipelineID target.ID
        StatusRunning (some (w.now process.calls)) none]) target = none) ∧
    ((process.runJob w target).2.1 = StatusCanceled ↔
      ∃ err, w.jobRun (process.calls ++ [.UpdateJob process.task.PipelineID target.ID
          StatusRunning (some (w.now process.calls)) none]) target = some err ∧
        IsCanceled err = true ∧
        w.parentDone (process.calls ++ [.UpdateJob process.task.PipelineID target.ID
          StatusRunning (some (w.now process.calls)) none]) = false) ∧
    ((process.runJob w target).2.1 = StatusFailed ↔
      ∃ err, w.jobRun (process.calls ++ [.UpdateJob process.task.PipelineID target.ID
          StatusRunning (some (w.now process.calls)) none]) target = some err ∧
        (IsCanceled err = false ∨
          w.parentDone (process.calls ++ [.UpdateJob process.task.PipelineID target.ID
            StatusRunning (some (w.now process.calls)) none]) = true)) ∧
    ((process.runJob w target).2.2 ≠ none ↔
      (process.runJob w target).2.1 ≠ StatusSuccess) := by
  obtain ⟨q, hq, _, hcalls⟩ := runJob_reaches_execute w process target hrun havail
  rw [hq, ← hcalls]
  unfold ProcessPipeline.runJob.execute
  cases hjob : w.jobRun q.calls target with
  | none => simp
  | some err =>
    cases hcan : IsCanceled err <;> cases hdone : w.parentDone q.calls <;> simp [hcan]

/-- C4 at job 11 of `[10, 11]`, whose executor is cancelled by the service
while the scheduler context is live: the status is `CANCELED`. -/
theorem runJob_status_witness :
    ((exampleProcess [10, 11]).runJob canceledWorld ⟨11⟩).2.1 = StatusCanceled ∧
    ((exampleProcess [10, 11]).runJob canceledWorld ⟨11⟩).2.2 ≠ none :=
  have h := runJob_status canceledWorld (exampleProcess [10, 11]) ⟨11⟩ rfl
    (Or.inr ⟨fun _ _ _ _ => rfl, fun _ => rfl⟩)
  ⟨h.2.1.mpr ⟨.canceled, rfl, rfl, rfl⟩, h.2.2.2.mpr (by decide)⟩

/-- One turn of the loop of `runJobs` for a job whose executor is cancelled
by the service (the parent context is not done): after the `RUNNING` update
the loop stops with `CANCELED` and the error, sending nothing more. -/
theorem runJobs_loop_cons_canceled (w : World) (process : ProcessPipeline)
    (job : PipelineJob) (rest : List PipelineJob)
    (hc : w.clientSucceeds) (hs : w.sidecarServes) (hr : w.configReads)
    (hjob : ∀ calls, ∃ err, w.jobRun calls job = some err ∧ IsCanceled err = true)
    (hparent : ∀ calls, w.parentDone calls = false) :
    ∃ (next : ProcessPipeline) (err : Err),
      ProcessPipeline.runJobs.loop w (job :: rest) process =
        (next, StatusCanceled, some err) ∧
      next.task = process.task ∧
      next.calls = process.calls ++
        [.UpdateJob process.task.PipelineID job.ID StatusRunning
          (some (w.now process.calls)) none] := by
  obtain ⟨q, hq, htask, hcalls⟩ :=
    runJob_reaches_execute w process job (hc _ _) (Or.inr ⟨hs, hr⟩)
  obtain ⟨err, herr, hcan⟩ := hjob q.calls
  have hexec : ProcessPipeline.runJob.execute w q job = (q, StatusCanceled, some err) := by
    unfold ProcessPipeline.runJob.execute
    rw [herr]
    simp [hcan, hparent]
  refine ⟨q, err, ?_, htask, hcalls⟩
  rw [ProcessPipeline.runJobs.loop, hq, hexec]
  simp

/-- C5, as stated, fails: when the service cancels the pipeline while the
first job serves the sidecar, or while it reads the config, `run` classifies
the job `FAILED`, sends `UpdateJob(FAILED)` for it, `SKIPPED` for the next
job and `UpdatePipeline(FAILED)`. -/
theorem run_cancel_before_executor :
    ((exampleProcess [10, 11]).run canceledServingWorld).1.status = some .FAILED ∧
    ((exampleProcess [10, 11]).run canceledServingWorld).1.calls =
      [Call.UpdatePipeline 1 .RUNNING (some 0) none, Call.UpdateJob 1 10 .RUNNING (some 1) none,
        Call.UpdateJob 1 10 .FAILED none (some 2), Call.UpdateJob 1 11 .SKIPPED none none,
        Call.UpdatePipeline 1 .FAILED none (some 2)] ∧
    ((exampleProcess [10, 11]).run canceledReadingWorld).1.status = some .FAILED ∧
    ((exampleProcess [10, 11]).run canceledReadingWorld).1.calls =
      [Call.UpdatePipeline 1 .RUNNING (some 0) none, Call.UpdateJob 1 10 .RUNNING (some 1) none,
        Call.UpdateJob 1 10 .FAILED none (some 2), Call.UpdateJob 1 11 .SKIPPED none none,
        Call.UpdatePipeline 1 .FAILED none (some 2)] := by
  refine ⟨rfl, rfl, rfl, rfl⟩

/-- C5, amended. For every pipeline run in which the jobs before the
current job succeeded and the service cancels the pipeline's local context
(the parent context not being done) while the executor of the current job
runs, so that the executor returns an error deriving from cancellation:
`run` classifies the job `CANCELED` (the status it records) and returns an
error; the `RUNNING` update of the current job is the last status update
sent, so no later job is started; no update with status `FAILED` is sent for
any job; and no `UpdatePipeline` with status `SUCCESS` or `FAILED` is sent. -/
theorem run_service_cancel (w : World) (runnerConfig : RunnerConfig) (task : PipelineRun)
    (sshKey : Key) (pre : List PipelineJob) (current : PipelineJob) (post : List PipelineJob)
    (hsplit : task.Jobs = pre ++ current :: post)
    (hc : w.clientSucceeds) (hs : w.sidecarServes) (hr : w.configReads)
    (hpre : ∀ calls, ∀ job ∈ pre, w.jobRun calls job = none)
    (hcancel : ∀ calls, ∃ err, w.jobRun calls current = some err ∧ IsCanceled err = true)
    (hparent : ∀ calls, w.parentDone calls = false) :
    ((NewProcessPipeline runnerConfig task sshKey).run w).1.status = some StatusCanceled ∧
    ((NewProcessPipeline runnerConfig task sshKey).run w).2 ≠ none ∧
    ((NewProcessPipeline runnerConfig task sshKey).run w).1.calls.map Call.shape =
      Call.UpdatePipeline task.PipelineID StatusRunning (some 0) none ::
        pre.flatMap (fun job =>
          [.UpdateJob task.PipelineID job.ID StatusRunning (some 0) none,
           .UpdateJob task.PipelineID job.ID StatusSuccess none (some 0)]) ++
      [Call.UpdateJob task.PipelineID current.ID StatusRunning (some 0) none] ∧
    (∀ call ∈ ((NewProcessPipeline runnerConfig task sshKey).run w).1.calls,
      ∀ jobID, call.jobStatus jobID ≠ some StatusFailed) ∧
    (∀ call ∈ ((NewProcessPipeline runnerConfig task sshKey).run w).1.calls,
      call.pipelineStatus ≠ some StatusSuccess ∧
      call.pipelineStatus ≠ some StatusFailed) := by
  obtain ⟨next, hbody, htask, hcalls⟩ := run_body_of_prefix w hc hs hr
    (NewProcessPipeline runnerConfig task sshKey) pre (current :: post) hsplit hpre
  obtain ⟨q, err, hloop, htask2, hcalls2⟩ :=
    runJobs_loop_cons_canceled w next current post hc hs hr hcancel hparent
  have hshape : ((NewProcessPipeline runnerConfig task sshKey).run w).1.calls.map Call.shape =
      Call.UpdatePipeline task.PipelineID StatusRunning (some 0) none ::
        pre.flatMap (fun job =>
          [.UpdateJob task.PipelineID job.ID StatusRunning (some 0) none,
           .UpdateJob task.PipelineID job.ID StatusSuccess none (some 0)]) ++
      [Call.UpdateJob task.PipelineID current.ID StatusRunning (some 0) none] := by
    rw [ProcessPipeline.run, hbody, hloop, destroy_calls]
    simp only [ProcessPipeline.run.finish]
    simp [hcalls, hcalls2, htask, NewProcessPipeline, Call.shape]
  have hmem : ∀ call ∈ ((NewProcessPipeline runnerConfig task sshKey).run w).1.calls,
      call.shape = Call.UpdatePipeline task.PipelineID StatusRunning (some 0) none ∨
      (∃ job : PipelineJob,
        call.shape = .UpdateJob task.PipelineID job.ID StatusRunning (some 0) none) ∨
      (∃ job : PipelineJob,
        call.shape = .UpdateJob task.PipelineID job.ID StatusSuccess none (some 0)) := by
    intro call hcall
    have h := List.mem_map_of_mem Call.shape hcall
    rw [hshape] at h
    simp only [List.mem_cons, List.mem_append, List.mem_flatMap, List.mem_singleton,
      List.not_mem_nil, or_false] at h
    rcases h with (h | ⟨job, _, h | h⟩) | h
    · exact Or.inl h
    · exact Or.inr (Or.inl ⟨job, h⟩)
    · exact Or.inr (Or.inr ⟨job, h⟩)
    · exact Or.inr (Or.inl ⟨current, h⟩)
  refine ⟨?_, ?_, hshape, ?_, ?_⟩
  · rw [ProcessPipeline.run, hbody, hloop, destroy_status]
    rfl
  · rw [ProcessPipeline.run, hbody, hloop]
    simp [ProcessPipeline.run.finish]
  · intro call hcall jobID
    rw [← jobStatus_shape]
    rcases hmem call hcall with h | ⟨job, h⟩ | ⟨job, h⟩ <;> rw [h] <;>
      simp only [Call.jobStatus] <;> try split
    all_goals simp
  · intro call hcall
    rw [← pipelineStatus_shape]
    rcases hmem call hcall with h | ⟨job, h⟩ | ⟨job, h⟩ <;> rw [h] <;>
      simp [Call.pipelineStatus]

/-- C5, amended, at jobs `[10, 11, 12]` with the service cancelling the
pipeline while job 11 executes. -/
theorem run_service_cancel_witness :
    ((exampleProcess [10, 11, 12]).run canceledWorld).1.status = some .CANCELED ∧
    ((exampleProcess [10, 11, 12]).run canceledWorld).2 ≠ none ∧
    ((exampleProcess [10, 11, 12]).run canceledWorld).1.calls.map Call.shape =
      [Call.UpdatePipeline 1 .RUNNING (some 0) none,
        Call.UpdateJob 1 10 .RUNNING (some 0) none, Call.UpdateJob 1 10 .SUCCESS none (some 0),
        Call.UpdateJob 1 11 .RUNNING (some 0) none] ∧
    (∀ call ∈ ((exampleProcess [10, 11, 12]).run canceledWorld).1.calls,
      ∀ jobID, call.jobStatus jobID ≠ some .FAILED) ∧
    (∀ call ∈ ((exampleProcess [10, 11, 12]).run canceledWorld).1.calls,
      call.pipelineStatus ≠ some .SUCCESS ∧ call.pipelineStatus ≠ some .FAILED) :=
  run_service_cancel canceledWorld _ _ _ [⟨10⟩] ⟨11⟩ [⟨12⟩] rfl
    (fun _ _ => rfl) (fun _ _ _ _ => rfl) (fun _ => rfl)
    (fun _ job hjob => by simp at hjob; subst hjob; rfl)
    (fun _ => ⟨.canceled, rfl, rfl⟩) (fun _ => rfl)

/-! ## Sidecar destruction -/

/-- C6, as stated, fails: `Destroy` does not clear the container handle, so
a second call in succession issues the workspace wipe and
`DestroyContainer` again. -/
theorem destroy_twice_repeats :
    (exampleSidecar.Destroy exampleCloud).calls =
      [CloudCall.Exec (some ⟨"c1", "snake-runner-sidecar-pipeline-1-uniq-abcdefghij"⟩)
          ["rm", "-rf", "/host/pipeline-1-uniq-abcdefghij"] [],
        CloudCall.DestroyContainer
          (some ⟨"c1", "snake-runner-sidecar-pipeline-1-uniq-abcdefghij"⟩)] ∧
    ((exampleSidecar.Destroy exampleCloud).sidecar.Destroy exampleCloud).calls =
      [CloudCall.Exec (some ⟨"c1", "snake-runner-sidecar-pipeline-1-uniq-abcdefghij"⟩)
          ["rm", "-rf", "/host/pipeline-1-uniq-abcdefghij"] [],
        CloudCall.DestroyContainer
          (some ⟨"c1", "snake-runner-sidecar-pipeline-1-uniq-abcdefghij"⟩)] := by
  decide

/-- C6, amended. For every sidecar state and whatever the provider calls
return: `Destroy` leaves the sidecar, its container handle included, as it
was; one call issues no provider call when the handle is nil, and otherwise
the workspace wipe `rm -rf /host/<name>` (only when the name is not empty)
followed by one `DestroyContainer`; a second call in succession issues the
same provider calls as the first; and the answers of the provider change
nothing but the log, so no error is returned or propagated. -/
theorem destroy_twice (first second : Cloud) (sidecar : Sidecar) :
    (sidecar.Destroy first).sidecar = sidecar ∧
    (sidecar.Destroy first).calls =
      (match sidecar.container with
      | none => []
      | some container =>
        (if sidecar.name ≠ "" then
          [CloudCall.Exec (some container)
            ["rm", "-rf", filepathJoin "/host" sidecar.name] []]
        else []) ++ [CloudCall.DestroyContainer (some container)]) ∧
    ((sidecar.Destroy first).sidecar.Destroy second).sidecar = sidecar ∧
    ((sidecar.Destroy first).sidecar.Destroy second).calls = (sidecar.Destroy first).calls := by
  have hstate : ∀ cloud : Cloud, (sidecar.Destroy cloud).sidecar = sidecar := by
    intro cloud
    unfold Sidecar.Destroy
    cases sidecar.container with
    | none => rfl
    | some container =>
      dsimp only
      generalize cloud.DestroyContainer (some container) = destroyed
      cases destroyed <;> rfl
  have hcalls : ∀ cloud : Cloud, (sidecar.Destroy cloud).calls =
      (match sidecar.container with
      | none => []
      | some container =>
        (if sidecar.name ≠ "" then
          [CloudCall.Exec (some container)
            ["rm", "-rf", filepathJoin "/host" sidecar.name] []]
        else []) ++ [CloudCall.DestroyContainer (some container)]) := by
    intro cloud
    unfold Sidecar.Destroy
    cases sidecar.container with
    | none => rfl
    | some container =>
      dsimp only
      generalize cloud.DestroyContainer (some container) = destroyed
      generalize cloud.Exec (some container)
        ["rm", "-rf", filepathJoin "/host" sidecar.name] [] = wiped
      by_cases hname : sidecar.name = "" <;> cases destroyed <;> cases wiped <;>
        simp [hname]
  refine ⟨hstate first, hcalls first, ?_, ?_⟩
  · rw [hstate first, hstate second]
  · rw [hstate first, hcalls first, hcalls second]

/-! ## The config parser -/

theorem mapLoad_mapDelete {α : Type} (m : List (String × α)) (key deleted : String)
    (h : key ≠ deleted) : mapLoad (mapDelete m deleted) key = mapLoad m key := by
  induction m with
  | nil => rfl
  | cons kv rest ih =>
    obtain ⟨k, v⟩ := kv
    unfold mapLoad mapDelete at ih ⊢
    by_cases hk : k = deleted
    · subst hk
      have hne : (key == k) = false := by simpa using h
      simp [List.filter_cons, List.lookup_cons, hne]
      simpa using ih
    · by_cases hkey : key = k
      · subst hkey
        simp [List.filter_cons, List.lookup_cons, hk]
      · have hne : (key == k) = false := by simpa using hkey
        simp [List.filter_cons, List.lookup_cons, hk, hne]
        simpa using ih

theorem mem_mapDelete {α : Type} (m : List (String × α)) (deleted : String)
    (kv : String × α) : kv ∈ mapDelete m deleted ↔ kv ∈ m ∧ kv.1 ≠ deleted := by
  simp [mapDelete]

theorem mem_mapKeys_mapStore {α : Type} (m : List (String × α)) (key : String) (value : α)
    (k : String) : k ∈ mapKeys (mapStore m key value) ↔ k = key ∨ k ∈ mapKeys m := by
  simp only [mapKeys, mapStore, mapDelete, List.map_append, List.mem_append, List.mem_map,
    List.mem_filter, List.map_cons, List.map_nil, List.mem_singleton]
  constructor
  · rintro (⟨kv, ⟨hmem, _⟩, rfl⟩ | h)
    · exact Or.inr ⟨kv, hmem, rfl⟩
    · exact Or.inl h
  · rintro (h | ⟨kv, hmem, rfl⟩)
    · exact Or.inr h
    · by_cases hk : kv.1 = key
      · exact Or.inr hk
      · exact Or.inl ⟨kv, ⟨hmem, by simpa using hk⟩, rfl⟩

/-- The job loop of `unmarshalConfig` succeeds when every node decodes as a
`ConfigJob`. -/
theorem unmarshalConfig_jobs_ok (Y : Yaml) (raw : List (String × Y.Node))
    (jobs : List (String × ConfigJob))
    (h : ∀ kv ∈ raw, ∃ job, Y.decodeConfigJob kv.2 = .ok job) :
    (unmarshalConfig.jobs Y raw jobs).2 = none := by
  induction raw generalizing jobs with
  | nil => rfl
  | cons kv rest ih =>
    obtain ⟨k, node⟩ := kv
    obtain ⟨job, hjob⟩ := h (k, node) (List.mem_cons_self _ _)
    simp only at hjob
    unfold unmarshalConfig.jobs
    rw [hjob]
    exact ih _ (fun kv hkv => h kv (List.mem_cons_of_mem _ hkv))

/-- When the job loop of `unmarshalConfig` succeeds, the keys of its result
are the keys it started with and every key of the map it ranged over. -/
theorem unmarshalConfig_jobs_keys (Y : Yaml) (raw : List (String × Y.Node))
    (jobs : List (String × ConfigJob))
    (h : (unmarshalConfig.jobs Y raw jobs).2 = none) (k : String) :
    k ∈ mapKeys (unmarshalConfig.jobs Y raw jobs).1 ↔ k ∈ mapKeys jobs ∨ k ∈ mapKeys raw := by
  induction raw generalizing jobs with
  | nil => simp [unmarshalConfig.jobs, mapKeys]
  | cons kv rest ih =>
    obtain ⟨key, node⟩ := kv
    unfold unmarshalConfig.jobs at h ⊢
    cases hjob : Y.decodeConfigJob node with
    | error err => rw [hjob] at h; simp at h
    | ok job =>
      rw [hjob] at h
      simp only at h ⊢
      rw [ih _ h, mem_mapKeys_mapStore]
      simp only [mapKeys, List.map_cons, List.mem_cons]
      tauto

/-- C7: the code at two documents with a `variables` block.  For `image`,
`stages` and `variables: {FOO: bar}` the parser succeeds but `Jobs` holds an
entry named `variables`; for `variables: {commands: make}`, a valid map of
strings, the parser fails because the block is also decoded as a
`ConfigJob`. -/
theorem unmarshalConfig_variables_as_job :
    unmarshalConfig exampleYaml "image: alpine\nstages:\n- build\nvariables:\n  FOO: bar\n" =
      ({ Variables := [("FOO", "bar")], Image := "alpine", Stages := ["build"],
         Jobs := [("variables", {})] }, none) ∧
    (unmarshalConfig exampleYaml
      "image: alpine\nstages:\n- build\nvariables:\n  commands: make\n").2 =
      some (.failure "cannot unmarshal into []string") := by
  constructor <;> rfl

/-- What `unmarshalConfig` returns when `image` and `stages` are present and
decode: the outcome of the job loop over the remaining keys, then of the
`variables` block. -/
theorem unmarshalConfig_of_required (Y : Yaml) (data : String)
    (raw : List (String × Y.Node)) (hraw : Y.Unmarshal data = .ok raw)
    (imageNode stagesNode : Y.Node) (image : String) (stages : List String)
    (himage : mapLoad raw "image" = some imageNode)
    (hstages : mapLoad raw "stages" = some stagesNode)
    (hdimage : Y.decodeString imageNode = .ok image)
    (hdstages : Y.decodeStrings stagesNode = .ok stages) :
    unmarshalConfig Y data =
      match unmarshalConfig.jobs Y (mapDelete (mapDelete raw "image") "stages") [] with
      | (jobs, some err) => ({ Image := image, Stages := stages, Jobs := jobs }, some err)
      | (jobs, none) =>
        match mapLoad (mapDelete (mapDelete raw "image") "stages") "variables" with
        | some node =>
          match Y.decodeStringMap node with
          | .error err => ({ Image := image, Stages := stages, Jobs := jobs }, some err)
          | .ok vars =>
            ({ Image := image, Stages := stages, Jobs := jobs, Variables := vars }, none)
        | none => ({ Image := image, Stages := stages, Jobs := jobs }, none) := by
  have hstages2 : mapLoad (mapDelete raw "image") "stages" = some stagesNode := by
    rw [mapLoad_mapDelete _ _ _ (by decide)]; exact hstages
  unfold unmarshalConfig
  simp only [hraw, himage, hdimage, hstages2, hdstages]

/-- When `unmarshalConfig` succeeds, the keys of `Jobs` are the top-level
keys other than `image` and `stages`. -/
theorem unmarshalConfig_jobs_keyset (Y : Yaml) (data : String)
    (raw : List (String × Y.Node)) (hraw : Y.Unmarshal data = .ok raw)
    (hok : (unmarshalConfig Y data).2 = none) (k : String) :
    k ∈ mapKeys (unmarshalConfig Y data).1.Jobs ↔
      k ∈ mapKeys raw ∧ k ≠ "image" ∧ k ≠ "stages" := by
  have hkeys : k ∈ mapKeys (mapDelete (mapDelete raw "image") "stages") ↔
      k ∈ mapKeys raw ∧ k ≠ "image" ∧ k ≠ "stages" := by
    simp only [mapKeys, List.mem_map, mem_mapDelete]
    constructor
    · rintro ⟨kv, ⟨⟨hmem, h1⟩, h2⟩, rfl⟩
      exact ⟨⟨kv, hmem, rfl⟩, h1, h2⟩
    · rintro ⟨⟨kv, hmem, rfl⟩, h1, h2⟩
      exact ⟨kv, ⟨⟨hmem, h1⟩, h2⟩, rfl⟩
  cases himage : mapLoad raw "image" with
  | none => simp [unmarshalConfig, hraw, himage] at hok
  | some imageNode =>
    cases hdimage : Y.decodeString imageNode with
    | error err => simp [unmarshalConfig, hraw, himage, hdimage] at hok
    | ok image =>
      have hdel : mapLoad (mapDelete raw "image") "stages" = mapLoad raw "stages" :=
        mapLoad_mapDelete _ _ _ (by decide)
      cases hstages : mapLoad raw "stages" with
      | none => simp [unmarshalConfig, hraw, himage, hdimage, hdel, hstages] at hok
      | some stagesNode =>
        cases hdstages : Y.decodeStrings stagesNode with
        | error err =>
          simp [unmarshalConfig, hraw, himage, hdimage, hdel, hstages, hdstages] at hok
        | ok stages =>
          have heq := unmarshalConfig_of_required Y data raw hraw imageNode stagesNode image
            stages himage hstages hdimage hdstages
          rw [heq] at hok ⊢
          rcases hloop : unmarshalConfig.jobs Y (mapDelete (mapDelete raw "image") "stages") []
            with ⟨jobs, err⟩
          have hk := unmarshalConfig_jobs_keys Y
            (mapDelete (mapDelete raw "image") "stages") []
          rw [hloop] at hok hk
          cases err with
          | some err => simp at hok
          | none =>
            have hk2 := hk rfl k
            simp only [mapKeys, List.map_nil, List.not_mem_nil, false_or] at hk2
            simp only []
            cases mapLoad (mapDelete (mapDelete raw "image") "stages") "variables" with
            | none => exact hk2.trans hkeys
            | some node =>
              dsimp only
              cases Y.decodeStringMap node with
              | error err => exact hk2.trans hkeys
              | ok vars => exact hk2.trans hkeys

/-- What the code guarantees about the required keys, for every config
document that parses as a top-level mapping: `unmarshalConfig` returns an
error whenever the key `image` is absent or the key `stages` is absent,
whatever other keys are present; and when both keys are present and every
decode the function performs succeeds (`image` as a string, `stages` as a
list of strings, every other value, the `variables` value included, as a
`ConfigJob`, and the `variables` value as a map of strings), it returns no
error, with `Config.Image` and `Config.Stages` equal to the decoded values
of those two keys. -/
theorem unmarshalConfig_required_keys (Y : Yaml) (data : String)
    (raw : List (String × Y.Node)) (hraw : Y.Unmarshal data = .ok raw) :
    ((mapLoad raw "image" = none ∨ mapLoad raw "stages" = none) →
      (unmarshalConfig Y data).2 ≠ none) ∧
    (∀ (imageNode stagesNode : Y.Node) (image : String) (stages : List String),
      mapLoad raw "image" = some imageNode → mapLoad raw "stages" = some stagesNode →
      Y.decodeString imageNode = .ok image → Y.decodeStrings stagesNode = .ok stages →
      (∀ kv ∈ raw, kv.1 ≠ "image" → kv.1 ≠ "stages" →
        ∃ job, Y.decodeConfigJob kv.2 = .ok job) →
      (∀ node, mapLoad raw "variables" = some node →
        ∃ vars, Y.decodeStringMap node = .ok vars) →
      (unmarshalConfig Y data).2 = none ∧ (unmarshalConfig Y data).1.Image = image ∧
        (unmarshalConfig Y data).1.Stages = stages) := by
  have hdel : mapLoad (mapDelete raw "image") "stages" = mapLoad raw "stages" :=
    mapLoad_mapDelete _ _ _ (by decide)
  constructor
  · intro habsent
    cases himage : mapLoad raw "image" with
    | none => simp [unmarshalConfig, hraw, himage]
    | some imageNode =>
      have hstages : mapLoad raw "stages" = none := by
        rcases habsent with h | h
        · rw [himage] at h; cases h
        · exact h
      cases hdimage : Y.decodeString imageNode with
      | error err => simp [unmarshalConfig, hraw, himage, hdimage]
      | ok image => simp [unmarshalConfig, hraw, himage, hdimage, hdel, hstages]
  · intro imageNode stagesNode image stages himage hstages hdimage hdstages hjobs hvars
    rw [unmarshalConfig_of_required Y data raw hraw imageNode stagesNode image stages himage
      hstages hdimage hdstages]
    have hloop := unmarshalConfig_jobs_ok Y (mapDelete (mapDelete raw "image") "stages") []
      (fun kv hkv => by
        rw [mem_mapDelete, mem_mapDelete] at hkv
        exact hjobs kv hkv.1.1 hkv.1.2 hkv.2)
    rcases hres : unmarshalConfig.jobs Y (mapDelete (mapDelete raw "image") "stages") []
      with ⟨jobs, err⟩
    rw [hres] at hloop
    simp only at hloop
    subst hloop
    have hv : mapLoad (mapDelete (mapDelete raw "image") "stages") "variables" =
        mapLoad raw "variables" := by
      rw [mapLoad_mapDelete _ _ _ (by decide), mapLoad_mapDelete _ _ _ (by decide)]
    rw [hv]
    cases hvar : mapLoad raw "variables" with
    | none => exact ⟨rfl, rfl, rfl⟩
    | some node =>
      obtain ⟨vars, hdv⟩ := hvars node hvar
      simp [hdv]

/-- The guarantee on the required keys at two example documents: one
without `stages`, which is rejected, and one with `image`, `stages`,
`variables` and a job, which is accepted. -/
theorem unmarshalConfig_required_keys_witness :
    (unmarshalConfig exampleYaml "image: alpine\ncompile:\n  stage: build\n").2 ≠ none ∧
    ((unmarshalConfig exampleYaml
        "image: alpine\nstages:\n- build\nvariables:\n  FOO: bar\ncompile:\n  stage: build\n  commands:\n  - make\n").2 = none ∧
      (unmarshalConfig exampleYaml
        "image: alpine\nstages:\n- build\nvariables:\n  FOO: bar\ncompile:\n  stage: build\n  commands:\n  - make\n").1.Image = "alpine" ∧
      (unmarshalConfig exampleYaml
        "image: alpine\nstages:\n- build\nvariables:\n  FOO: bar\ncompile:\n  stage: build\n  commands:\n  - make\n").1.Stages = ["build"]) :=
  ⟨(unmarshalConfig_required_keys exampleYaml "image: alpine\ncompile:\n  stage: build\n"
      [("image", .val (.scalar "alpine")), ("compile", .mapping [("stage", .scalar "build")])]
      rfl).1 (Or.inr rfl),
    (unmarshalConfig_required_keys exampleYaml
      "image: alpine\nstages:\n- build\nvariables:\n  FOO: bar\ncompile:\n  stage: build\n  commands:\n  - make\n"
      [("image", .val (.scalar "alpine")), ("stages", .val (.seq ["build"])),
       ("variables", .mapping [("FOO", .scalar "bar")]),
       ("compile", .mapping [("stage", .scalar "build"), ("commands", .seq ["make"])])]
      rfl).2 (.val (.scalar "alpine")) (.val (.seq ["build"])) "alpine" ["build"] rfl rfl rfl rfl
      (by
        intro kv hkv h1 h2
        simp only [List.mem_cons, List.mem_singleton, List.not_mem_nil, or_false] at hkv
        rcases hkv with rfl | rfl | rfl | rfl
        · exact absurd rfl h1
        · exact absurd rfl h2
        · exact ⟨_, rfl⟩
        · exact ⟨_, rfl⟩)
      (fun node hnode => ⟨[("FOO", "bar")], by
        have h : node = Node.mapping [("FOO", .scalar "bar")] :=
          Option.some.inj (hnode.symm.trans rfl)
        rw [h]
        rfl⟩)⟩

/-! ## The scheduler -/

theorem wrapInt64_of_range (x : Int) (hlo : -(2 ^ 63) ≤ x) (hhi : x < 2 ^ 63) :
    wrapInt64 x = x := by
  unfold wrapInt64
  omega

theorem cancelPipeline_fields (scheduler : Scheduler) (id : Int) :
    (scheduler.cancelPipeline id).config = scheduler.config ∧
    (scheduler.cancelPipeline id).pipelines = scheduler.pipelines ∧
    (scheduler.cancelPipeline id).goroutines = scheduler.goroutines := by
  unfold Scheduler.cancelPipeline
  split <;> exact ⟨rfl, rfl, rfl⟩

theorem foldl_cancelPipeline_fields (ids : List Int) (scheduler : Scheduler) :
    (ids.foldl Scheduler.cancelPipeline scheduler).config = scheduler.config ∧
    (ids.foldl Scheduler.cancelPipeline scheduler).pipelines = scheduler.pipelines ∧
    (ids.foldl Scheduler.cancelPipeline scheduler).goroutines = scheduler.goroutines := by
  induction ids generalizing scheduler with
  | nil => exact ⟨rfl, rfl, rfl⟩
  | cons id rest ih =>
    obtain ⟨h1, h2, h3⟩ := ih (scheduler.cancelPipeline id)
    obtain ⟨g1, g2, g3⟩ := cancelPipeline_fields scheduler id
    exact ⟨h1.trans g1, h2.trans g2, h3.trans g3⟩

/-- The invariant of the scheduler: the counter equals the number of live
pipeline goroutines and does not exceed `MaxParallelPipelines`. -/
theorem reachable_invariant (config : RunnerConfig)
    (hfit : config.MaxParallelPipelines < 2 ^ 63)
    (scheduler : Scheduler) (hreach : Reachable config scheduler)
    (hmax : 1 ≤ config.MaxParallelPipelines) :
    scheduler.config = config ∧
    scheduler.pipelines = (scheduler.goroutines.length : Int) ∧
    scheduler.pipelines ≤ config.MaxParallelPipelines := by
  induction hreach with
  | start =>
    refine ⟨rfl, rfl, ?_⟩
    simp only [NewScheduler]
    omega
  | @getAndServe s produced getTask _ hcap ih =>
    obtain ⟨hcfg, hcount, hle⟩ := ih
    unfold Scheduler.getAndServe
    cases hkey : (match s.sshKey with
        | some key => some key
        | none => produced) with
    | none => exact ⟨hcfg, hcount, hle⟩
    | some key =>
      simp only []
      rcases hget : getTask s.getPipelines
        (decide (s.pipelines < s.config.MaxParallelPipelines)) key with ⟨task, err⟩
      simp only [Scheduler.getPipelines] at hget ⊢
      rw [hget]
      cases task with
      | none => cases err <;> exact ⟨hcfg, hcount, hle⟩
      | some task =>
        cases err with
        | some err => exact ⟨hcfg, hcount, hle⟩
        | none =>
          cases task with
          | PipelineRun run =>
            have hlt : s.pipelines < s.config.MaxParallelPipelines := by
              by_contra hnot
              have hdec : decide (s.pipelines < s.config.MaxParallelPipelines) = false := by
                simpa using hnot
              rw [hdec] at hget
              have := hcap s.pipelinesMap key run
              rw [hget] at this
              exact this rfl
            rw [hcfg] at hlt
            have hnonneg : (0 : Int) ≤ s.pipelines := by rw [hcount]; omega
            have hwrap : atomicAddInt64 s.pipelines 1 = s.pipelines + 1 := by
              unfold atomicAddInt64
              exact wrapInt64_of_range _ (by omega) (by omega)
            simp only [Scheduler.serveTask, hwrap, List.length_append, List.length_singleton]
            refine ⟨hcfg, ?_, ?_⟩
            · rw [hcount]; push_cast; rfl
            · omega
          | PipelineCancel ids =>
            obtain ⟨g1, g2, g3⟩ := foldl_cancelPipeline_fields ids
              { s with sshKey := some key }
            simp only [Scheduler.serveTask]
            exact ⟨g1.trans hcfg, by rw [g2, g3]; exact hcount, by rw [g2]; exact hle⟩
          | unexpected => exact ⟨hcfg, hcount, hle⟩
  | @startPipeline s next index _ hstep ih =>
    obtain ⟨hcfg, hcount, hle⟩ := ih
    unfold Scheduler.startPipeline at hstep
    cases hget : s.goroutines.get? index with
    | none => rw [hget] at hstep; cases hstep
    | some goroutine =>
      rw [hget] at hstep
      simp only at hstep
      split at hstep
      · cases hstep
      · cases hstep
        refine ⟨hcfg, ?_, hle⟩
        simp only [List.length_set]
        exact hcount
  | @pipelineDone s next index _ hstep ih =>
    obtain ⟨hcfg, hcount, hle⟩ := ih
    unfold Scheduler.pipelineDone at hstep
    cases hget : s.goroutines.get? index with
    | none => rw [hget] at hstep; cases hstep
    | some goroutine =>
      rw [hget] at hstep
      simp only at hstep
      split at hstep
      · cases hstep
        have hidx : index < s.goroutines.length := by
          rw [List.get?_eq_some] at hget
          exact hget.1
        have hwrap : atomicAddInt64 s.pipelines (-1) = s.pipelines - 1 := by
          unfold atomicAddInt64
          exact wrapInt64_of_range _ (by omega) (by omega)
        simp only [hwrap, List.length_eraseIdx, hidx, if_true]
        refine ⟨hcfg, ?_, by omega⟩
        rw [hcount]
        omega
      · cases hstep

/-- C9. In every scheduler state reachable from the initial state (counter
0, `1 ≤ MaxParallelPipelines`, an `int64`) by `getAndServe` steps and steps
of the pipeline goroutines, where the service returns a `PipelineRun` only
when it was passed `hasCapacity = true`: the running-pipeline counter and the
number of live pipeline goroutines never exceed `MaxParallelPipelines`, and
the `hasCapacity` bit a `getAndServe` started in that state passes to
`Client.GetTask` equals `counter < MaxParallelPipelines`, so it is false iff
the counter has reached `MaxParallelPipelines`. -/
theorem scheduler_bounded (config : RunnerConfig)
    (hmax : 1 ≤ config.MaxParallelPipelines) (hfit : config.MaxParallelPipelines < 2 ^ 63)
    (scheduler : Scheduler) (hreach : Reachable config scheduler) :
    scheduler.pipelines ≤ config.MaxParallelPipelines ∧
    (scheduler.goroutines.length : Int) ≤ config.MaxParallelPipelines ∧
    ∀ produced getTask ids hasCapacity key,
      (scheduler.getAndServe produced getTask).request = some (ids, hasCapacity, key) →
      hasCapacity = decide (scheduler.pipelines < config.MaxParallelPipelines) ∧
      (hasCapacity = false ↔ scheduler.pipelines = config.MaxParallelPipelines) := by
  obtain ⟨hcfg, hcount, hle⟩ := reachable_invariant config hfit scheduler hreach hmax
  refine ⟨hle, by rw [← hcount]; exact hle, ?_⟩
  intro produced getTask ids hasCapacity key hreq
  have hbit : hasCapacity = decide (scheduler.pipelines < config.MaxParallelPipelines) := by
    unfold Scheduler.getAndServe at hreq
    cases hkey : (match scheduler.sshKey with
        | some key => some key
        | none => produced) with
    | none => rw [hkey] at hreq; cases hreq
    | some cached =>
      rw [hkey] at hreq
      simp only [Scheduler.getPipelines] at hreq
      rcases hget : getTask scheduler.pipelinesMap
        (decide (scheduler.pipelines < scheduler.config.MaxParallelPipelines)) cached
        with ⟨task, err⟩
      rw [hget] at hreq
      rw [← hcfg]
      cases task with
      | none =>
        cases err <;>
        · simp only [Option.some.injEq, Prod.mk.injEq] at hreq
          exact hreq.2.1.symm
      | some task =>
        cases err with
        | some err =>
          simp only [Option.some.injEq, Prod.mk.injEq] at hreq
          exact hreq.2.1.symm
        | none =>
          cases task <;>
          · simp only [Scheduler.serveTask, Option.some.injEq, Prod.mk.injEq] at hreq
            exact hreq.2.1.symm
  refine ⟨hbit, ?_⟩
  rw [hbit]
  simp only [decide_eq_false_iff_not, not_lt]
  omega

/-- C9 at `MaxParallelPipelines = 1` with one pipeline running: the counter
is within the bound and the next `getAndServe` passes `hasCapacity = false`. -/
theorem scheduler_bounded_witness :
    busyScheduler.pipelines ≤ 1 ∧
    (busyScheduler.goroutines.length : Int) ≤ 1 ∧
    ∀ produced getTask ids hasCapacity key,
      (busyScheduler.getAndServe produced getTask).request = some (ids, hasCapacity, key) →
      hasCapacity = decide (busyScheduler.pipelines < 1) ∧
      (hasCapacity = false ↔ busyScheduler.pipelines = 1) :=
  scheduler_bounded { MaxParallelPipelines := 1 } (by decide) (by norm_num) busyScheduler
    (Reachable.getAndServe _ grantingClient Reachable.start
      (fun _ _ _ h => by simp [grantingClient] at h))

/-! ## Job statuses never move backward -/

theorem execute_outcome (w : World) (process : ProcessPipeline) (target : PipelineJob) :
    ((ProcessPipeline.runJob.execute w process target).2.2 = none →
      (ProcessPipeline.runJob.execute w process target).2.1 = StatusSuccess) ∧
    ((ProcessPipeline.runJob.execute w process target).2.1 = StatusFailed →
      (ProcessPipeline.runJob.execute w process target).2.2 ≠ none) := by
  unfold ProcessPipeline.runJob.execute
  cases w.jobRun process.calls target with
  | none => simp
  | some err =>
    cases hcan : IsCanceled err <;> cases hdone : w.parentDone process.calls <;> simp [hcan]

/-- Whatever the environment answers, `runJob` sends the `RUNNING` update of
the job and nothing else; it returns `SUCCESS` when it returns no error, and
an error when it returns `FAILED`. -/
theorem runJob_outcome (w : World) (process : ProcessPipeline) (target : PipelineJob) :
    (process.runJob w target).1.task = process.task ∧
    (process.runJob w target).1.calls = process.calls ++
      [.UpdateJob process.task.PipelineID target.ID StatusRunning
        (some (w.now process.calls)) none] ∧
    ((process.runJob w target).2.2 = none →
      (process.runJob w target).2.1 = StatusSuccess) ∧
    ((process.runJob w target).2.1 = StatusFailed →
      (process.runJob w target).2.2 ≠ none) := by
  unfold ProcessPipeline.runJob
  simp only [ProcessPipeline.send]
  cases w.client process.calls (.UpdateJob process.task.PipelineID target.ID StatusRunning
      (some (w.now process.calls)) none) with
  | some err => simp
  | none =>
    dsimp only
    cases hside : process.sidecar with
    | some sidecar =>
      dsimp only
      refine ⟨?_, ?_, execute_outcome w _ target⟩
      · rw [execute_fst]
      · rw [execute_fst]
    | none =>
      dsimp only
      generalize Sidecar.Serve _ _ _ _ = served
      rcases served with ⟨sidecar, calls, err⟩
      cases err with
      | some err => simp
      | none =>
        dsimp only
        generalize hq : ({ process with
          calls := process.calls ++ [Call.UpdateJob process.task.PipelineID target.ID
            StatusRunning (some (w.now process.calls)) none],
          sidecar := some sidecar, cloudCalls := process.cloudCalls ++ calls } :
            ProcessPipeline) = q
        have h2 := readConfig_calls w q
        rcases hrc : q.readConfig w with ⟨q2, e⟩
        rw [hrc] at h2
        simp only at h2
        cases e with
        | some err =>
          dsimp only
          refine ⟨?_, ?_, by simp, by simp⟩
          · rw [h2.2, ← hq]
          · rw [h2.1, ← hq]
        | none =>
          dsimp only
          refine ⟨?_, ?_, execute_outcome w _ target⟩
          · rw [execute_fst, h2.2, ← hq]
          · rw [execute_fst, h2.1, ← hq]

theorem keeps_running (pid jobID : Int) (startedAt finishedAt : Option Time) (later : Call) :
    (Call.UpdateJob pid jobID StatusRunning startedAt finishedAt).keeps later = true := by
  cases later <;> simp [Call.keeps, Status.terminal]

theorem keeps_pipeline_left (id : Int) (status : Status) (startedAt finishedAt : Option Time)
    (later : Call) :
    (Call.UpdatePipeline id status startedAt finishedAt).keeps later = true := by
  cases later <;> rfl

theorem keeps_pipeline_right (earlier : Call) (id : Int) (status : Status)
    (startedAt finishedAt : Option Time) :
    earlier.keeps (Call.UpdatePipeline id status startedAt finishedAt) = true := by
  cases earlier <;> rfl

theorem keeps_same_status (pid pid2 jobID laterID : Int) (status : Status)
    (s1 f1 s2 f2 : Option Time) :
    (Call.UpdateJob pid jobID status s1 f1).keeps
      (Call.UpdateJob pid2 laterID status s2 f2) = true := by
  simp [Call.keeps]

/-- A call is kept by a later call that is not about its job. -/
theorem keeps_of_other_job (pid jobID : Int) (status : Status)
    (startedAt finishedAt : Option Time) (later : Call)
    (h : later.jobStatus jobID = none) :
    (Call.UpdateJob pid jobID status startedAt finishedAt).keeps later = true := by
  cases later with
  | UpdatePipeline _ _ _ _ => rfl
  | UpdateJob _ laterID laterStatus _ _ =>
    simp only [Call.jobStatus] at h
    have hne : laterID ≠ jobID := by
      intro heq
      simp [heq] at h
    simp [Call.keeps, hne]

/-- The calls `fail` sends for a failing job followed by jobs with other
identifiers contain no backward move, and are about those jobs only. -/
theorem noBackward_fail_calls (pid : Int) (failed : PipelineJob) (post : List PipelineJob)
    (now : Option Time) (hpost : ∀ job ∈ post, job.ID ≠ failed.ID) :
    noBackward (Call.UpdateJob pid failed.ID StatusFailed none now ::
      post.map (fun job => Call.UpdateJob pid job.ID StatusSkipped none none) ++
      [Call.UpdatePipeline pid StatusFailed none now]) := by
  unfold noBackward
  rw [List.cons_append, List.pairwise_cons, List.pairwise_append, List.pairwise_map]
  refine ⟨?_, ?_, ?_, ?_⟩
  · intro later hlater
    rw [List.mem_append, List.mem_map, List.mem_singleton] at hlater
    rcases hlater with ⟨job, hjob, rfl⟩ | rfl
    · apply keeps_of_other_job
      simp [Call.jobStatus, hpost job hjob]
    · exact keeps_pipeline_right _ _ _ _ _
  · exact List.pairwise_of_forall (fun a b => keeps_same_status _ _ _ _ _ _ _ _ _)
  · simp
  · intro a _ b hb
    rw [List.mem_singleton] at hb
    rw [hb]
    exact keeps_pipeline_right _ _ _ _ _

theorem jobStatus_mem_of_map (pid : Int) (status : Status) (startedAt finishedAt : Option Time)
    (jobs : List PipelineJob) (call : Call)
    (hcall : call ∈ jobs.map (fun job =>
      Call.UpdateJob pid job.ID status startedAt finishedAt))
    (id : Int) (hid : call.jobStatus id ≠ none) : id ∈ jobs.map PipelineJob.ID := by
  rw [List.mem_map] at hcall
  obtain ⟨job, hjob, rfl⟩ := hcall
  simp only [Call.jobStatus] at hid
  have : job.ID = id := by
    by_contra hne
    simp [hne] at hid
  rw [← this]
  exact List.mem_map_of_mem _ hjob

/-- The loop of `runJobs`, when no `SUCCESS` update is rejected and the
identifiers are distinct and differ from `-1`: the calls it sends contain no
backward move and are about the jobs still to run only. -/
theorem runJobs_loop_noBackward (w : World) (hsucc : w.acceptsSuccess)
    (rest : List PipelineJob) :
    ∀ (finished : List PipelineJob) (process : ProcessPipeline),
      process.task.Jobs = finished ++ rest →
      (process.task.Jobs.map PipelineJob.ID).Nodup →
      (∀ job ∈ process.task.Jobs, job.ID ≠ -1) →
      ∃ sent : List Call,
        (ProcessPipeline.runJobs.loop w rest process).1.calls = process.calls ++ sent ∧
        (ProcessPipeline.runJobs.loop w rest process).1.task = process.task ∧
        noBackward sent ∧
        ∀ call ∈ sent, ∀ id, call.jobStatus id ≠ none → id ∈ rest.map PipelineJob.ID := by
  induction rest with
  | nil =>
    intro finished process _ _ _
    exact ⟨[], by simp [ProcessPipeline.runJobs.loop], rfl, List.Pairwise.nil, by simp⟩
  | cons job rest ih =>
    intro finished process hsplit hnodup hids
    obtain ⟨htask, hcalls, hnone, hfailed⟩ := runJob_outcome w process job
    have hparts : (∀ j ∈ finished, j.ID ≠ job.ID) ∧ (∀ j ∈ rest, j.ID ≠ job.ID) := by
      rw [hsplit] at hnodup
      exact nodup_split hnodup
    have hrunning : ∀ id, (Call.UpdateJob process.task.PipelineID job.ID StatusRunning
        (some (w.now process.calls)) none).jobStatus id ≠ none →
        id ∈ (job :: rest).map PipelineJob.ID := by
      intro id hid
      simp only [Call.jobStatus] at hid
      have : job.ID = id := by
        by_contra hne
        simp [hne] at hid
      rw [← this]
      simp
    rw [ProcessPipeline.runJobs.loop]
    rcases hr : process.runJob w job with ⟨q, status, err⟩
    rw [hr] at htask hcalls hnone hfailed
    simp only at htask hcalls hnone hfailed ⊢
    cases err with
    | some e =>
      by_cases hst : status = StatusFailed
      · have hf := fail_calls_of_split w q finished job rest (by rw [htask]; exact hsplit)
          (by rw [htask]; exact hnodup) (hids job (by rw [hsplit]; simp))
        simp only [hst, if_true, hf, hcalls, htask]
        refine ⟨Call.UpdateJob process.task.PipelineID job.ID StatusRunning
            (some (w.now process.calls)) none ::
          (Call.UpdateJob process.task.PipelineID job.ID StatusFailed none
              (some (w.now (process.calls ++
                [Call.UpdateJob process.task.PipelineID job.ID StatusRunning
                  (some (w.now process.calls)) none]))) ::
            rest.map (fun j =>
              Call.UpdateJob process.task.PipelineID j.ID StatusSkipped none none) ++
          [Call.UpdatePipeline process.task.PipelineID StatusFailed none
              (some (w.now (process.calls ++
                [Call.UpdateJob process.task.PipelineID job.ID StatusRunning
                  (some (w.now process.calls)) none])))]), ?_, ?_, ?_, ?_⟩
        · simp
        · trivial
        · unfold noBackward
          rw [List.pairwise_cons]
          exact ⟨fun later _ => keeps_running _ _ _ _ later,
            noBackward_fail_calls _ job rest _ hparts.2⟩
        · intro call hcall id hid
          rw [List.mem_cons] at hcall
          rcases hcall with rfl | hcall
          · exact hrunning id hid
          · rw [List.cons_append, List.mem_cons, List.mem_append, List.mem_singleton] at hcall
            rcases hcall with rfl | hcall | rfl
            · simp only [Call.jobStatus] at hid
              have : job.ID = id := by
                by_contra hne
                simp [hne] at hid
              rw [← this]
              simp
            · exact List.mem_cons_of_mem _
                (jobStatus_mem_of_map _ _ _ _ rest call hcall id hid)
            · simp [Call.jobStatus] at hid
      · simp only [hst, if_false]
        refine ⟨[Call.UpdateJob process.task.PipelineID job.ID StatusRunning
            (some (w.now process.calls)) none], hcalls, htask, ?_, ?_⟩
        · exact List.pairwise_singleton _ _
        · intro call hcall id hid
          rw [List.mem_singleton] at hcall
          rw [hcall] at hid
          exact hrunning id hid
    | none =>
      have hs : status = StatusSuccess := hnone rfl
      subst hs
      have hsend : w.client q.calls (Call.UpdateJob q.task.PipelineID job.ID StatusSuccess
          none (some (w.now q.calls))) = none := hsucc _ _ rfl
      have hif : (if StatusSuccess = StatusFailed then q.fail w job.ID else q) = q := by
        simp
      simp only [hif, ProcessPipeline.send, hsend]
      obtain ⟨sent, h1, h2, h3, h4⟩ := ih (finished ++ [job])
        { q with calls := q.calls ++ [Call.UpdateJob q.task.PipelineID job.ID StatusSuccess
          none (some (w.now q.calls))] }
        (by simp [htask, hsplit]) (by simpa [htask] using hnodup)
        (by simpa [htask] using hids)
      refine ⟨Call.UpdateJob process.task.PipelineID job.ID StatusRunning
          (some (w.now process.calls)) none ::
        Call.UpdateJob q.task.PipelineID job.ID StatusSuccess none (some (w.now q.calls)) ::
        sent, ?_, ?_, ?_, ?_⟩
      · rw [h1]
        simp [hcalls]
      · rw [h2]
        exact htask
      · unfold noBackward
        rw [List.pairwise_cons, List.pairwise_cons]
        refine ⟨fun later _ => keeps_running _ _ _ _ later, ?_, h3⟩
        intro later hlater
        apply keeps_of_other_job
        by_contra hne
        have hmem := h4 later hlater job.ID hne
        rw [List.mem_map] at hmem
        obtain ⟨j, hj, hjid⟩ := hmem
        exact hparts.2 j hj hjid
      · intro call hcall id hid
        rw [List.mem_cons, List.mem_cons] at hcall
        rcases hcall with rfl | rfl | hcall
        · exact hrunning id hid
        · simp only [Call.jobStatus] at hid
          have : job.ID = id := by
            by_contra hne
            simp [hne] at hid
          rw [← this]
          simp
        · exact List.mem_cons_of_mem _ (h4 call hcall id hid)

/-- C10, as stated, fails.  With job `[10]` succeeding and the service
rejecting the final `UpdatePipeline(SUCCESS)`, `run` calls `fail(-1)` and
sends `UpdateJob(10, FAILED)` after `UpdateJob(10, SUCCESS)`; the same
happens when the service rejects `UpdateJob(10, SUCCESS)` itself, and, for
the distinct identifiers `[10, -1]`, when the job `-1` fails. -/
theorem run_moves_backward :
    ((exampleProcess [10]).run rejectingPipelineWorld).1.calls =
      [Call.UpdatePipeline 1 .RUNNING (some 0) none, Call.UpdateJob 1 10 .RUNNING (some 1) none,
        Call.UpdateJob 1 10 .SUCCESS none (some 2), Call.UpdatePipeline 1 .SUCCESS none (some 3),
        Call.UpdateJob 1 10 .FAILED none (some 4),
        Call.UpdatePipeline 1 .FAILED none (some 4)] ∧
    ¬ noBackward ((exampleProcess [10]).run rejectingPipelineWorld).1.calls ∧
    ((exampleProcess [10]).run rejectingJobWorld).1.calls =
      [Call.UpdatePipeline 1 .RUNNING (some 0) none, Call.UpdateJob 1 10 .RUNNING (some 1) none,
        Call.UpdateJob 1 10 .SUCCESS none (some 2), Call.UpdateJob 1 10 .FAILED none (some 3),
        Call.UpdatePipeline 1 .FAILED none (some 3)] ∧
    ¬ noBackward ((exampleProcess [10]).run rejectingJobWorld).1.calls ∧
    ((exampleProcess [10, -1]).run failingSentinelWorld).1.calls =
      [Call.UpdatePipeline 1 .RUNNING (some 0) none, Call.UpdateJob 1 10 .RUNNING (some 1) none,
        Call.UpdateJob 1 10 .SUCCESS none (some 2), Call.UpdateJob 1 (-1) .RUNNING (some 3) none,
        Call.UpdateJob 1 10 .FAILED none (some 4), Call.UpdateJob 1 (-1) .FAILED none (some 4),
        Call.UpdatePipeline 1 .FAILED none (some 4)] ∧
    ¬ noBackward ((exampleProcess [10, -1]).run failingSentinelWorld).1.calls := by
  refine ⟨rfl, by decide, rfl, by decide, rfl, by decide⟩

/-- C10, amended. In every call trace of `run`, for every job list with
distinct identifiers none of which is `-1`, and every outcome of the client
calls and job executors in which no status update carrying `SUCCESS` is
rejected: once an `UpdateJob` carrying a terminal status (`SUCCESS`,
`FAILED`, `SKIPPED` or `CANCELED`) has been sent for a job, no later
`UpdateJob` with a different status is sent for that job. -/
theorem run_noBackward (w : World) (runnerConfig : RunnerConfig) (task : PipelineRun)
    (sshKey : Key)
    (hnodup : (task.Jobs.map PipelineJob.ID).Nodup)
    (hids : ∀ job ∈ task.Jobs, job.ID ≠ -1)
    (hsucc : w.acceptsSuccess) :
    noBackward ((NewProcessPipeline runnerConfig task sshKey).run w).1.calls := by
  rw [ProcessPipeline.run, destroy_calls, ProcessPipeline.run.body]
  simp only [ProcessPipeline.send]
  cases w.client (NewProcessPipeline runnerConfig task sshKey).calls
      (.UpdatePipeline (NewProcessPipeline runnerConfig task sshKey).task.PipelineID
        StatusRunning (some (w.now (NewProcessPipeline runnerConfig task sshKey).calls))
        none) with
  | some err =>
    dsimp only
    rw [fail_calls_sentinel]
    simp only [NewProcessPipeline, List.nil_append, List.singleton_append, List.cons_append]
    unfold noBackward
    rw [List.pairwise_cons, List.pairwise_append, List.pairwise_map]
    refine ⟨fun later _ => keeps_pipeline_left _ _ _ _ later, ?_, by simp, ?_⟩
    · exact List.pairwise_of_forall (fun a b => keeps_same_status _ _ _ _ _ _ _ _ _)
    · intro a _ b hb
      rw [List.mem_singleton] at hb
      rw [hb]
      exact keeps_pipeline_right _ _ _ _ _
  | none =>
    dsimp only
    obtain ⟨sent, h1, h2, h3, h4⟩ := runJobs_loop_noBackward w hsucc task.Jobs []
      { NewProcessPipeline runnerConfig task sshKey with
        calls := (NewProcessPipeline runnerConfig task sshKey).calls ++
          [.UpdatePipeline (NewProcessPipeline runnerConfig task sshKey).task.PipelineID
            StatusRunning (some (w.now (NewProcessPipeline runnerConfig task sshKey).calls))
            none] }
      (by simp [NewProcessPipeline]) (by simpa [NewProcessPipeline] using hnodup)
      (by simpa [NewProcessPipeline] using hids)
    have hpre : noBackward
        (Call.UpdatePipeline task.PipelineID StatusRunning (some (w.now [])) none :: sent) := by
      unfold noBackward
      rw [List.pairwise_cons]
      exact ⟨fun later _ => keeps_pipeline_left _ _ _ _ later, h3⟩
    simp only [ProcessPipeline.runJobs]
    simp only [NewProcessPipeline, List.nil_append] at h1 h2 ⊢
    rcases hloop : ProcessPipeline.runJobs.loop w task.Jobs
      { runnerConfig := runnerConfig, task := task, sshKey := sshKey,
        calls := [Call.UpdatePipeline task.PipelineID StatusRunning (some (w.now [])) none] }
      with ⟨q, status, err⟩
    rw [hloop] at h1 h2
    simp only at h1 h2
    unfold ProcessPipeline.run.finish
    cases err with
    | some err =>
      dsimp only
      rw [h1]
      exact hpre
    | none =>
      have hsend : w.client q.calls (Call.UpdatePipeline q.task.PipelineID StatusSuccess
          none (some (w.now q.calls))) = none := hsucc _ _ rfl
      simp only [ProcessPipeline.send, hsend]
      simp only [h1]
      unfold noBackward at hpre ⊢
      rw [List.pairwise_cons] at hpre
      simp only [List.singleton_append, List.cons_append, List.nil_append]
      rw [List.pairwise_cons, List.pairwise_append]
      refine ⟨fun later _ => keeps_pipeline_left _ _ _ _ later, hpre.2, by simp, ?_⟩
      intro a _ b hb
      rw [List.mem_singleton] at hb
      rw [hb]
      exact keeps_pipeline_right _ _ _ _ _

/-- C10, amended, at jobs `[10, 11, 12]` with job 11 failing. -/
theorem run_noBackward_witness :
    noBackward ((exampleProcess [10, 11, 12]).run failingWorld).1.calls :=
  run_noBackward failingWorld _ _ _ (by decide) (by decide) (fun _ _ _ => rfl)

/-! ## The timestamps sent by `fail` -/

/-- C11, as stated, fails.  For jobs `[10, 11, 12]`, `fail(11)` sends the
`SKIPPED` update of job 12 with a nil finish time, while the `FAILED` updates
of job 11 and of the pipeline carry `now`; and for the distinct identifiers
`[-1, 12]`, `fail(-1)` sends `FAILED`, not `SKIPPED`, for job 12. -/
theorem fail_skipped_without_finish :
    ((exampleProcess [10, 11, 12]).fail exampleWorld 11).calls =
      [Call.UpdateJob 1 11 .FAILED none (some 0), Call.UpdateJob 1 12 .SKIPPED none none,
        Call.UpdatePipeline 1 .FAILED none (some 0)] ∧
    (Call.UpdateJob 1 12 .SKIPPED none none).finishedAt = none ∧
    ((exampleProcess [-1, 12]).fail exampleWorld (-1)).calls =
      [Call.UpdateJob 1 (-1) .FAILED none (some 0), Call.UpdateJob 1 12 .FAILED none (some 0),
        Call.UpdatePipeline 1 .FAILED none (some 0)] := by
  refine ⟨rfl, rfl, rfl⟩

/-- C11, amended. For every job list with distinct identifiers none of
which is `-1`, and every failing job `J` in it: the calls `fail(J.ID)` sends
include, for each job after `J`, an `UpdateJob` carrying `SKIPPED`, and every
`UpdateJob` it sends for a job after `J` carries `SKIPPED` with a nil start
and a nil finish time.  The only calls with a non-nil finish time are the
`FAILED` update of `J` and the `FAILED` update of the pipeline, which are
both sent and carry the same `now`. -/
theorem fail_skipped_finish (w : World) (process : ProcessPipeline)
    (pre : List PipelineJob) (failed : PipelineJob) (post : List PipelineJob)
    (hjobs : process.task.Jobs = pre ++ failed :: post)
    (hnodup : (process.task.Jobs.map PipelineJob.ID).Nodup)
    (hids : ∀ job ∈ process.task.Jobs, job.ID ≠ -1) :
    ∃ sent : List Call,
      (process.fail w failed.ID).calls = process.calls ++ sent ∧
      (∀ job ∈ post,
        Call.UpdateJob process.task.PipelineID job.ID StatusSkipped none none ∈ sent) ∧
      (∀ job ∈ post, ∀ call ∈ sent, call.jobStatus job.ID ≠ none →
        call = Call.UpdateJob process.task.PipelineID job.ID StatusSkipped none none) ∧
      (∀ call ∈ sent, call.finishedAt ≠ none →
        call = Call.UpdateJob process.task.PipelineID failed.ID StatusFailed none
            (some (w.now process.calls)) ∨
        call = Call.UpdatePipeline process.task.PipelineID StatusFailed none
            (some (w.now process.calls))) ∧
      Call.UpdateJob process.task.PipelineID failed.ID StatusFailed none
        (some (w.now process.calls)) ∈ sent ∧
      Call.UpdatePipeline process.task.PipelineID StatusFailed none
        (some (w.now process.calls)) ∈ sent := by
  have hne : failed.ID ≠ -1 := hids failed (by rw [hjobs]; simp)
  have hpost : ∀ job ∈ post, job.ID ≠ failed.ID := by
    rw [hjobs] at hnodup
    exact (nodup_split hnodup).2
  refine ⟨Call.UpdateJob process.task.PipelineID failed.ID StatusFailed none
      (some (w.now process.calls)) ::
    post.map (fun job =>
      Call.UpdateJob process.task.PipelineID job.ID StatusSkipped none none) ++
    [Call.UpdatePipeline process.task.PipelineID StatusFailed none
      (some (w.now process.calls))], ?_, ?_, ?_, ?_, ?_, ?_⟩
  · rw [fail_calls_of_split w process pre failed post hjobs hnodup hne]
    simp
  · intro job hjob
    rw [List.cons_append, List.mem_cons, List.mem_append]
    exact Or.inr (Or.inl (List.mem_map.mpr ⟨job, hjob, rfl⟩))
  · intro job hjob call hcall hstatus
    rw [List.cons_append, List.mem_cons, List.mem_append, List.mem_map,
      List.mem_singleton] at hcall
    rcases hcall with rfl | ⟨other, _, rfl⟩ | rfl
    · exfalso
      apply hstatus
      simp [Call.jobStatus, (hpost job hjob).symm]
    · simp only [Call.jobStatus] at hstatus
      have hid : other.ID = job.ID := by
        by_contra hdiff
        simp [hdiff] at hstatus
      rw [hid]
    · exfalso
      exact hstatus rfl
  · intro call hcall hfinish
    rw [List.cons_append, List.mem_cons, List.mem_append, List.mem_map,
      List.mem_singleton] at hcall
    rcases hcall with rfl | ⟨other, _, rfl⟩ | rfl
    · exact Or.inl rfl
    · exfalso
      exact hfinish rfl
    · exact Or.inr rfl
  · exact List.mem_cons_self _ _
  · rw [List.cons_append, List.mem_cons, List.mem_append]
    exact Or.inr (Or.inr (List.mem_singleton.mpr rfl))

/-- C11, amended, at jobs `[10, 11, 12]` with job 11 failing. -/
theorem fail_skipped_finish_witness :
    ∃ sent : List Call,
      ((exampleProcess [10, 11, 12]).fail exampleWorld 11).calls = [] ++ sent ∧
      (∀ job ∈ [PipelineJob.mk 12], Call.UpdateJob 1 job.ID .SKIPPED none none ∈ sent) ∧
      (∀ job ∈ [PipelineJob.mk 12], ∀ call ∈ sent, call.jobStatus job.ID ≠ none →
        call = Call.UpdateJob 1 job.ID .SKIPPED none none) ∧
      (∀ call ∈ sent, call.finishedAt ≠ none →
        call = Call.UpdateJob 1 11 .FAILED none (some 0) ∨
        call = Call.UpdatePipeline 1 .FAILED none (some 0)) ∧
      Call.UpdateJob 1 11 .FAILED none (some 0) ∈ sent ∧
      Call.UpdatePipeline 1 .FAILED none (some 0) ∈ sent :=
  fail_skipped_finish exampleWorld (exampleProcess [10, 11, 12]) [⟨10⟩] ⟨11⟩ [⟨12⟩] rfl
    (by decide) (by decide)

/-! ## A valid `variables` block rejected -/

/-- C8: the code at the document `image: alpine`, `stages: [build]`,
`variables: {commands: make}`.  It parses as a top-level mapping that holds
both `image` and `stages`, and every value decodes at the type the schema
gives it (`image` as a string, `stages` as a list of strings, `variables` as
a map of strings); yet `unmarshalConfig` returns an error, because the job
loop also decodes the `variables` value as a `ConfigJob`. -/
theorem unmarshalConfig_rejects_decodable_values :
    exampleYaml.Unmarshal "image: alpine\nstages:\n- build\nvariables:\n  commands: make\n" =
      .ok [("image", Node.val (.scalar "alpine")), ("stages", Node.val (.seq ["build"])),
        ("variables", Node.mapping [("commands", .scalar "make")])] ∧
    exampleYaml.decodeString (Node.val (.scalar "alpine")) = .ok "alpine" ∧
    exampleYaml.decodeStrings (Node.val (.seq ["build"])) = .ok ["build"] ∧
    exampleYaml.decodeStringMap (Node.mapping [("commands", .scalar "make")]) =
      .ok [("commands", "make")] ∧
    (unmarshalConfig exampleYaml
      "image: alpine\nstages:\n- build\nvariables:\n  commands: make\n").2 ≠ none ∧
    unmarshalConfig exampleYaml
      "image: alpine\nstages:\n- build\nvariables:\n  commands: make\n" =
      ({ Image := "alpine", Stages := ["build"] },
        some (.failure "cannot unmarshal into []string")) := by
  refine ⟨rfl, rfl, rfl, rfl, by decide, rfl⟩

end SnakeRunner
